import Mathlib

/-! Verification development for the two-track route comparison pipeline:
elevation profiles (src/src/utils/gpx.ts), the divergence segmentation engine
(src/scripts/analyze-segments.ts), the blended-route assembler and selection
codec (src/src/App.tsx) and the day-split partitioner.  Numeric values are
modelled as rationals; the transcendental haversine formula is abstracted as a
distance-function parameter (written dist), applied as dist lat1 lng1 lat2 lng2
and assumed non-negative where a claim needs it. -/

/-- DistFn abstracts the haversine geodesic distance of the sources: the
arguments are lat1 lng1 lat2 lng2 and the result is the distance (in the
caller's unit, kilometres or metres). -/
abbrev DistFn : Type := ℚ → ℚ → ℚ → ℚ → ℚ

/-- Absolute value on the rationals written so that it evaluates by kernel
reduction (Math.abs of the sources). -/
def absQ (q : ℚ) : ℚ := if q < 0 then -q else q

namespace Gpx

/-- ElevationPoint of src/src/utils/gpx.ts: one distance-indexed profile point
with its (smoothed) grade. -/
structure ElevationPoint where
  distance : ℚ
  elevation : ℚ
  lat : ℚ
  lng : ℚ
  grade : ℚ
deriving Repr, DecidableEq, Inhabited

/-- Profile-construction loop of extractElevationProfile (gpx.ts lines 79-105)
for the points after the first: cumulative distance plus instantaneous grade,
guarded against zero segment distance.  The previous coordinate is carried as
prevLng prevLat prevElev (elevation already defaulted to 0). -/
def profileGo (dist : DistFn) (prevLng prevLat prevElev cumulativeDistance : ℚ) :
    List (ℚ × ℚ × Option ℚ) → List ElevationPoint
  | [] => []
  | (lng, lat, elevOpt) :: rest =>
      let elevation := elevOpt.getD 0
      let segmentKm := dist prevLat prevLng lat lng
      let cum := cumulativeDistance + segmentKm
      let segmentDistance := segmentKm * 1000
      let grade := if 0 < segmentDistance then (elevation - prevElev) / segmentDistance * 100 else 0
      { distance := cum, elevation := elevation, lat := lat, lng := lng, grade := grade } ::
        profileGo dist lng lat elevation cum rest

/-- Unsmoothed profile of extractElevationProfile: the first point has
cumulative distance 0 and grade 0; input coordinates are (lng, lat, elevation)
triples with the elevation optional (defaulting to 0, as in the source). -/
def extractElevationProfileRaw (dist : DistFn) :
    List (ℚ × ℚ × Option ℚ) → List ElevationPoint
  | [] => []
  | (lng, lat, elevOpt) :: rest =>
      let elevation := elevOpt.getD 0
      { distance := 0, elevation := elevation, lat := lat, lng := lng, grade := 0 } ::
        profileGo dist lng lat elevation 0 rest

/-- Indexed-map loop of smoothGrade (gpx.ts lines 117-123): the JavaScript
profile.map((point, i) => ...) is written as a recursion carrying the index i.
Math.max(0, i - floor(w/2)) is natural-number subtraction, Math.ceil(w/2) is
(w+1)/2, and the window is the slice [start, stop). -/
def smoothGo (profile : List ElevationPoint) (windowSize : ℕ) :
    ℕ → List ElevationPoint → List ElevationPoint
  | _, [] => []
  | i, point :: rest =>
      let start := i - windowSize / 2
      let stop := min profile.length (i + (windowSize + 1) / 2)
      let window := (profile.drop start).take (stop - start)
      let avgGrade := (window.foldl (fun sum p => sum + p.grade) 0) / (window.length : ℚ)
      { point with grade := avgGrade } :: smoothGo profile windowSize (i + 1) rest

/-- Moving-average grade smoothing (gpx.ts smoothGrade). -/
def smoothGrade (profile : List ElevationPoint) (windowSize : ℕ) : List ElevationPoint :=
  smoothGo profile windowSize 0 profile

/-- Full profile builder (gpx.ts extractElevationProfile): raw profile followed
by grade smoothing with window size 10. -/
def extractElevationProfile (dist : DistFn) (coordinates : List (ℚ × ℚ × Option ℚ)) :
    List ElevationPoint :=
  smoothGrade (extractElevationProfileRaw dist coordinates) 10

/-- RouteStats of gpx.ts calculateStats; the -Infinity / Infinity starting
values of the extrema are modelled with WithBot / WithTop. -/
structure RouteStats where
  distance : ℚ
  elevationGain : ℚ
  elevationLoss : ℚ
  maxElevation : WithBot ℚ
  minElevation : WithTop ℚ
deriving Repr, DecidableEq

/-- Gain/loss accumulation loop of calculateStats (gpx.ts lines 141-148) over
the elevation series, carrying the previous elevation. -/
def statsGo (prev gain loss : ℚ) : List ℚ → ℚ × ℚ
  | [] => (gain, loss)
  | e :: rest =>
      let diff := e - prev
      if 0 < diff then statsGo e (gain + diff) loss rest
      else statsGo e gain (loss + absQ diff) rest

/-- Route statistics (gpx.ts calculateStats): gain/loss over consecutive
elevation deltas, extrema, and the final cumulative distance (0 when empty). -/
def calculateStats (profile : List ElevationPoint) : RouteStats :=
  let es := profile.map fun p => p.elevation
  let gl : ℚ × ℚ :=
    match es with
    | [] => (0, 0)
    | e0 :: rest => statsGo e0 0 0 rest
  { distance := (profile.getLast?).elim 0 fun p => p.distance
    elevationGain := gl.1
    elevationLoss := gl.2
    maxElevation := es.foldl (fun m e => max m (e : WithBot ℚ)) ⊥
    minElevation := es.foldl (fun m e => min m (e : WithTop ℚ)) ⊤ }

/-- Binary-search loop shared verbatim by findPointAtDistance (gpx.ts lines
175-182) and percentageToCoordIndex (day-split module): narrows [left, right]
to the least index whose stored value is at least the target (or to the upper
end when every value is below the target). -/
def bsearchFuel (ds : List ℚ) (target : ℚ) : ℕ → ℕ → ℕ → ℕ
  | 0, left, _ => left
  | fuel + 1, left, right =>
      if left < right then
        if ds.getD ((left + right) / 2) 0 < target then
          bsearchFuel ds target fuel ((left + right) / 2 + 1) right
        else bsearchFuel ds target fuel left ((left + right) / 2)
      else left

/-- Binary-search loop entry point: the loop always terminates within
right - left iterations, so that fuel is exactly sufficient. -/
def bsearchGo (ds : List ℚ) (target : ℚ) (left right : ℕ) : ℕ :=
  bsearchFuel ds target (right - left) left right

/-- Closest-index selection after the binary search: step back to the previous
index exactly when it is strictly closer (gpx.ts lines 185-193). -/
def closestIdx (ds : List ℚ) (target : ℚ) : ℕ :=
  let left := bsearchGo ds target 0 (ds.length - 1)
  if 0 < left ∧ absQ (ds.getD (left - 1) 0 - target) < absQ (ds.getD left 0 - target) then
    left - 1
  else left

/-- Point-at-distance query (gpx.ts findPointAtDistance): null on an empty
profile, otherwise the profile point at the closest index. -/
def findPointAtDistance (profile : List ElevationPoint) (targetDistance : ℚ) :
    Option ElevationPoint :=
  match profile with
  | [] => none
  | _ :: _ =>
      some (profile.getD (closestIdx (profile.map fun p => p.distance) targetDistance) default)

/-- Downsampling (gpx.ts downsampleProfile): identity below the cap, otherwise
keep every step-th index (step = ceil(length / maxPoints)) and force-include
the final point.  The reference comparison downsampled.last !== profile.last of
the source is modelled as comparison of the last kept index with the final
index. -/
def downsampleProfile (profile : List ElevationPoint) (maxPoints : ℕ) : List ElevationPoint :=
  if profile.length ≤ maxPoints then profile
  else
    let step := (profile.length + maxPoints - 1) / maxPoints
    let picked := (List.range profile.length).filter fun i => i % step = 0
    let idxs :=
      if picked.getLastD 0 = profile.length - 1 then picked
      else picked ++ [profile.length - 1]
    idxs.map fun i => profile.getD i default

end Gpx

namespace Analyze

/-- Coordinate of src/scripts/analyze-segments.ts. -/
structure Coordinate where
  lng : ℚ
  lat : ℚ
  elevation : ℚ
deriving Repr, DecidableEq, Inhabited

/-- RoutePoint of analyze-segments.ts: a coordinate annotated with the
cumulative distance (metres) from the start of its track. -/
structure RoutePoint extends Coordinate where
  distanceFromStart : ℚ
deriving Repr, DecidableEq, Inhabited

/-- SegmentStats of analyze-segments.ts: coordinates as (lng, lat, elevation)
triples plus distance and unsigned gain/loss sums. -/
structure SegmentStats where
  coordinates : List (ℚ × ℚ × ℚ)
  distanceKm : ℚ
  elevationGain : ℚ
  elevationLoss : ℚ
deriving Repr, DecidableEq, Inhabited

/-- Segment type tag: shared or diverging. -/
inductive SegType where
  | shared : SegType
  | diverging : SegType
deriving Repr, DecidableEq, Inhabited

/-- Segment record of analyze-segments.ts (gravel and tarmac stats per span). -/
structure Segment where
  id : String
  type : SegType
  order : ℕ
  gravel : SegmentStats
  tarmac : SegmentStats
deriving Repr, DecidableEq, Inhabited

/-- Loop of addDistances for the points after the first, carrying the previous
coordinate and the running cumulative distance. -/
def addDistancesGo (dist : DistFn) (prev : Coordinate) (cumulativeDistance : ℚ) :
    List Coordinate → List RoutePoint
  | [] => []
  | c :: rest =>
      let cum := cumulativeDistance + dist prev.lat prev.lng c.lat c.lng
      { toCoordinate := c, distanceFromStart := cum } :: addDistancesGo dist c cum rest

/-- Cumulative-distance annotation (analyze-segments.ts addDistances): the
first point gets distance 0. -/
def addDistances (dist : DistFn) : List Coordinate → List RoutePoint
  | [] => []
  | c :: rest =>
      { toCoordinate := c, distanceFromStart := 0 } :: addDistancesGo dist c 0 rest

/-- Nearest-point scan (analyze-segments.ts findNearestPoint): none models the
undefined result point of the source on an empty route (whose dereference by a
caller is a fault).  The source starts the fold at (route[0], Infinity) and the
first iteration always replaces it, which equals starting at
(route[0], distance-to-route[0]) and folding over the tail; ties keep the
earliest point because the comparison is strict. -/
def findNearestPoint (dist : DistFn) (point : Coordinate) :
    List RoutePoint → Option (RoutePoint × ℚ)
  | [] => none
  | p0 :: rest =>
      some (rest.foldl
        (fun acc rp =>
          let d := dist point.lat point.lng rp.lat rp.lng
          if d < acc.2 then (rp, d) else acc)
        (p0, dist point.lat point.lng p0.lat p0.lng))

/-- Sampling loop of sampleRoute over the points after the first, carrying the
distance of the last sampled point. -/
def sampleGo (intervalMeters : ℚ) (lastSampledDistance : ℚ) :
    List RoutePoint → List RoutePoint
  | [] => []
  | p :: rest =>
      if intervalMeters ≤ p.distanceFromStart - lastSampledDistance then
        p :: sampleGo intervalMeters p.distanceFromStart rest
      else sampleGo intervalMeters lastSampledDistance rest

/-- Spatial resampling (analyze-segments.ts sampleRoute): keep the first point,
then every point at least intervalMeters past the last kept one, and
force-include the final point.  The reference comparison
sampled.last !== route.last is modelled as value comparison. -/
def sampleRoute (route : List RoutePoint) (intervalMeters : ℚ) : List RoutePoint :=
  match route with
  | [] => []
  | p0 :: rest =>
      let sampled := p0 :: sampleGo intervalMeters 0 rest
      let lastPoint := rest.getLastD p0
      if sampled.getLastD p0 = lastPoint then sampled else sampled ++ [lastPoint]

/-- Overlap classification (analyze-segments.ts analyzeOverlap): each primary
point is paired with whether its nearest secondary point lies within the
threshold.  An empty secondary route gives distance Infinity in the source, so
the flag is false; the unused nearestOnSecondary field is dropped. -/
def analyzeOverlap (dist : DistFn) (primaryRoute secondaryRoute : List RoutePoint)
    (threshold : ℚ) : List (RoutePoint × Bool) :=
  primaryRoute.map fun p =>
    (p, match findNearestPoint dist p.toCoordinate secondaryRoute with
        | some nd => decide (nd.2 ≤ threshold)
        | none => false)

/-- Pairwise accumulation loop of calculateSegmentStats (analyze-segments.ts
lines 194-203): total distance plus unsigned gain/loss. -/
def segStatsGo (dist : DistFn) (prev : RoutePoint) (total gain loss : ℚ) :
    List RoutePoint → ℚ × ℚ × ℚ
  | [] => (total, gain, loss)
  | p :: rest =>
      let total := total + dist prev.lat prev.lng p.lat p.lng
      let diff := p.elevation - prev.elevation
      if 0 < diff then segStatsGo dist p total (gain + diff) loss rest
      else segStatsGo dist p total gain (loss + absQ diff) rest

/-- Segment statistics (analyze-segments.ts calculateSegmentStats): zero stats
for an empty point list, distance converted from metres to kilometres. -/
def calculateSegmentStats (dist : DistFn) (points : List RoutePoint) : SegmentStats :=
  match points with
  | [] => { coordinates := [], distanceKm := 0, elevationGain := 0, elevationLoss := 0 }
  | p0 :: rest =>
      let tgl := segStatsGo dist p0 0 0 0 rest
      { coordinates := points.map fun p => (p.lng, p.lat, p.elevation)
        distanceKm := tgl.1 / 1000
        elevationGain := tgl.2.1
        elevationLoss := tgl.2.2 }

/-- Distance-range extraction (analyze-segments.ts extractRouteSection). -/
def extractRouteSection (route : List RoutePoint) (startDistance endDistance : ℚ) :
    List RoutePoint :=
  route.filter fun p =>
    startDistance ≤ p.distanceFromStart ∧ p.distanceFromStart ≤ endDistance

/-- Corresponding-section lookup (analyze-segments.ts findCorrespondingSection):
empty primary section gives an empty result; otherwise the nearest secondary
points of the section endpoints bound the extracted secondary range (min/max,
since nearest-point lookups do not preserve direction).  none models the fault
of dereferencing the undefined nearest point of an empty secondary route. -/
def findCorrespondingSection (dist : DistFn) (primarySection : List RoutePoint)
    (secondaryRoute : List RoutePoint) : Option (List RoutePoint) :=
  match primarySection with
  | [] => some []
  | p0 :: rest => do
      let startNearest ← findNearestPoint dist p0.toCoordinate secondaryRoute
      let endNearest ← findNearestPoint dist (rest.getLastD p0).toCoordinate secondaryRoute
      let startDist := min startNearest.1.distanceFromStart endNearest.1.distanceFromStart
      let endDist := max startNearest.1.distanceFromStart endNearest.1.distanceFromStart
      pure (extractRouteSection secondaryRoute startDist endDist)

/-- Transition record of analyze-segments.ts: a distance-indexed overlap-status
boundary. -/
structure Transition where
  distance : ℚ
  isOverlapping : Bool
deriving Repr, DecidableEq, Inhabited

/-- Status-change scan of analyzeSegments (lines 304-312), carrying the current
overlap status; returns the recorded transitions and the final status. -/
def transGo (currentOverlap : Bool) :
    List (RoutePoint × Bool) → List Transition × Bool
  | [] => ([], currentOverlap)
  | (p, s) :: rest =>
      if s ≠ currentOverlap then
        let tf := transGo s rest
        ({ distance := p.distanceFromStart, isOverlapping := s } :: tf.1, tf.2)
      else transGo currentOverlap rest

/-- Transition-list construction of analyzeSegments (lines 300-318): the first
transition at distance 0 with the first point's status, one transition per
status change, and a final transition at the last sampled distance with the
final status.  none models the fault of reading overlapAnalysis[0] on an empty
classified sequence. -/
def buildTransitions (overlapAnalysis : List (RoutePoint × Bool)) :
    Option (List Transition) :=
  match overlapAnalysis with
  | [] => none
  | (p0, s0) :: rest =>
      let tf := transGo s0 rest
      let lastDistance := ((rest.map Prod.fst).getLastD p0).distanceFromStart
      some (({ distance := 0, isOverlapping := s0 } :: tf.1) ++
        [{ distance := lastDistance, isOverlapping := tf.2 }])

/-- Stack loop of mergeSmallSegments: merged is kept top-first (head = last
pushed).  A span from the stack top to the current transition that is shorter
than minLength is collapsed by popping the top (provided more than one element
remains on the stack), and the current transition is not pushed. -/
def mergeGo (minLength : ℚ) (merged : List Transition) :
    List Transition → List Transition
  | [] => merged.reverse
  | current :: rest =>
      match merged with
      | [] => mergeGo minLength [current] rest
      | lastMerged :: stackRest =>
          if current.distance - lastMerged.distance < minLength ∧ stackRest ≠ [] then
            mergeGo minLength stackRest rest
          else mergeGo minLength (current :: lastMerged :: stackRest) rest

/-- Merge pass (analyze-segments.ts mergeSmallSegments): lists of at most one
transition are returned unchanged; otherwise the greedy left-to-right stack
merge runs starting from the first transition. -/
def mergeSmallSegments (transitions : List Transition) (minLength : ℚ) :
    List Transition :=
  match transitions with
  | [] => []
  | [t] => [t]
  | t0 :: rest => mergeGo minLength [t0] rest

/-- Per-span segment construction of analyzeSegments (lines 329-351), indexed
from i = 0 over consecutive merged transitions: extract the full-resolution
gravel section, find the corresponding tarmac section, skip spans whose gravel
section is empty (the source's continue), and otherwise emit a segment with
1-based id and order i + 1. -/
def segmentsGo (dist : DistFn) (gravelRoute tarmacRoute : List RoutePoint) :
    ℕ → List Transition → Option (List Segment)
  | _, [] => some []
  | _, [_] => some []
  | i, t1 :: t2 :: rest => do
      let gravelSection := extractRouteSection gravelRoute t1.distance t2.distance
      let tarmacSection ← findCorrespondingSection dist gravelSection tarmacRoute
      let segs ← segmentsGo dist gravelRoute tarmacRoute (i + 1) (t2 :: rest)
      if gravelSection = [] then pure segs
      else
        pure ({ id := "seg-" ++ toString (i + 1)
                type := if t1.isOverlapping then SegType.shared else SegType.diverging
                order := i + 1
                gravel := calculateSegmentStats dist gravelSection
                tarmac := calculateSegmentStats dist tarmacSection } :: segs)

/-- OVERLAP_THRESHOLD_METERS of analyze-segments.ts. -/
def OVERLAP_THRESHOLD_METERS : ℚ := 100

/-- MIN_SEGMENT_LENGTH_METERS of analyze-segments.ts. -/
def MIN_SEGMENT_LENGTH_METERS : ℚ := 500

/-- Sampling interval (metres) used by analyzeSegments. -/
def SAMPLE_INTERVAL_METERS : ℚ := 50

/-- Merged transition list of the pipeline (analyzeSegments up to line 323),
from the parsed coordinate sequences: distances, 50 m resampling, overlap
classification against the 100 m threshold, raw transitions, and the 500 m
merge pass.  none when the transition construction faults. -/
def mergedTransitionsOf (dist : DistFn) (gravelCoords tarmacCoords : List Coordinate) :
    Option (List Transition) := do
  let gravelRoute := addDistances dist gravelCoords
  let tarmacRoute := addDistances dist tarmacCoords
  let sampledGravel := sampleRoute gravelRoute SAMPLE_INTERVAL_METERS
  let sampledTarmac := sampleRoute tarmacRoute SAMPLE_INTERVAL_METERS
  let overlapAnalysis := analyzeOverlap dist sampledGravel sampledTarmac OVERLAP_THRESHOLD_METERS
  let transitions ← buildTransitions overlapAnalysis
  pure (mergeSmallSegments transitions MIN_SEGMENT_LENGTH_METERS)

/-- Core of analyzeSegments (analyze-segments.ts lines 275-376) over parsed
coordinate sequences (the GPX file parsing is an external collaborator, and
console logging is dropped): the segment list built over the merged
transitions.  none models the undefined-element faults of the source on
degenerate inputs (empty tracks). -/
def analyzeSegmentsCore (dist : DistFn) (gravelCoords tarmacCoords : List Coordinate) :
    Option (List Segment) := do
  let gravelRoute := addDistances dist gravelCoords
  let tarmacRoute := addDistances dist tarmacCoords
  let merged ← mergedTransitionsOf dist gravelCoords tarmacCoords
  segmentsGo dist gravelRoute tarmacRoute 0 merged

end Analyze

namespace App

/-- RouteChoice of src/src/App.tsx: the chosen variant of a diverging
segment. -/
inductive RouteChoice where
  | gravel : RouteChoice
  | tarmac : RouteChoice
deriving Repr, DecidableEq, Inhabited

/-- Selection maps (JavaScript Map from segment id to RouteChoice) are
modelled as newest-first association lists: Map.get takes the first matching
entry and Map.set prepends, so lookups agree with the JavaScript map. -/
def mapGet (m : List (String × RouteChoice)) (k : String) : Option RouteChoice :=
  match m with
  | [] => none
  | (k2, v) :: rest => if k2 = k then some v else mapGet rest k

/-- Decimal digit character for a value below ten. -/
def digitChar (n : ℕ) : Char := Char.ofNat (48 + n)

/-- Digit-extraction loop with explicit fuel (the quotient shrinks by a factor
of ten per step, so fuel n is always sufficient). -/
def natCharsFuel : ℕ → ℕ → List Char
  | 0, n => [digitChar n]
  | fuel + 1, n =>
      if n < 10 then [digitChar n]
      else natCharsFuel fuel (n / 10) ++ [digitChar (n % 10)]

/-- Decimal digit string (as a character list) of a natural number, modelling
the JavaScript number-to-string conversion in the template literal of
encodeSelectionsToUrl. -/
def natChars (n : ℕ) : List Char := natCharsFuel n n

/-- Digit-character test of the token pattern (the regex class [0-9]). -/
def isDigitCh (c : Char) : Bool := decide (48 ≤ c.toNat ∧ c.toNat ≤ 57)

/-- Decimal value accumulation of parseInt over digit characters. -/
def parseDigitsGo (acc : ℕ) : List Char → ℕ
  | [] => acc
  | c :: rest => parseDigitsGo (acc * 10 + (c.toNat - 48)) rest

/-- Decimal parse of a digit string (parseInt with radix 10 on a string the
regex has already confined to digits). -/
def parseDigits (cs : List Char) : ℕ := parseDigitsGo 0 cs

/-- Splitting a character list at a separator, modelling the JavaScript
String.split: the result always has one more part than there are separator
occurrences, and the empty string splits to one empty part. -/
def splitOnChar (sep : Char) : List Char → List (List Char)
  | [] => [[]]
  | c :: rest =>
      let r := splitOnChar sep rest
      if c = sep then [] :: r else (c :: r.headD []) :: r.tail

/-- Joining parts with a separator, modelling the JavaScript Array.join. -/
def joinSep (sep : Char) : List (List Char) → List Char
  | [] => []
  | [p] => p
  | p :: ps => p ++ sep :: joinSep sep ps

/-- Selection encoding (App.tsx encodeSelectionsToUrl): one token per diverging
segment holding a selection, in segment-list order, each token a variant letter
followed by the segment's order number, hyphen-joined. -/
def encodeSelectionsToUrl (selections : List (String × RouteChoice))
    (segments : List Analyze.Segment) : List Char :=
  let diverging := segments.filter fun s => decide (s.type = Analyze.SegType.diverging)
  let parts := diverging.filterMap fun seg =>
    (mapGet selections seg.id).map fun choice =>
      (if choice = RouteChoice.gravel then 'g' else 't') :: natChars seg.order
  joinSep '-' parts

/-- Token match of the decode pattern ^([gt])(\d+)$: a variant letter followed
by a non-empty run of digits, anything else rejected. -/
def decodeToken (cs : List Char) : Option (RouteChoice × ℕ) :=
  match cs with
  | [] => none
  | c :: rest =>
      if (c = 'g' ∨ c = 't') ∧ rest ≠ [] ∧ rest.all isDigitCh then
        some ((if c = 'g' then RouteChoice.gravel else RouteChoice.tarmac), parseDigits rest)
      else none

/-- Token loop of decodeSelectionsFromUrl: malformed tokens, unknown order
numbers and non-diverging segments are silently skipped; the source's
segmentsByOrder map (built with later entries overwriting earlier ones) is
modelled by searching the reversed segment list. -/
def decodeGo (segments : List Analyze.Segment)
    (selections : List (String × RouteChoice)) :
    List (List Char) → List (String × RouteChoice)
  | [] => selections
  | part :: parts =>
      match decodeToken part with
      | none => decodeGo segments selections parts
      | some (choice, order) =>
          match segments.reverse.find? fun s => decide (s.order = order) with
          | none => decodeGo segments selections parts
          | some segment =>
              if segment.type = Analyze.SegType.diverging then
                decodeGo segments ((segment.id, choice) :: selections) parts
              else decodeGo segments selections parts

/-- Selection decoding (App.tsx decodeSelectionsFromUrl): the empty parameter
gives no selections, otherwise the hyphen-split tokens are processed in
order. -/
def decodeSelectionsFromUrl (param : List Char) (segments : List Analyze.Segment) :
    List (String × RouteChoice) :=
  if param = [] then [] else decodeGo segments [] (splitOnChar '-' param)

/-- BlendedRoute of src/src/types / App.tsx: the stitched coordinates with
aggregate statistics and the selections that produced them. -/
structure BlendedRoute where
  coordinates : List (ℚ × ℚ × ℚ)
  distanceKm : ℚ
  elevationGain : ℚ
  elevationLoss : ℚ
  selections : List (String × RouteChoice)
deriving Repr, DecidableEq

/-- Per-segment data choice of buildBlendedRoute: gravel for shared segments,
the selected variant for diverging ones (gravel when the lookup misses, as in
the source's ternary). -/
def chosenStats (selections : List (String × RouteChoice))
    (segment : Analyze.Segment) : Analyze.SegmentStats :=
  if segment.type = Analyze.SegType.shared then segment.gravel
  else
    match mapGet selections segment.id with
    | some RouteChoice.tarmac => segment.tarmac
    | _ => segment.gravel

/-- Accumulation loop of buildBlendedRoute (App.tsx lines 271-295): append each
segment's coordinates, dropping the first coordinate when both the running list
and the segment's list are non-empty, and sum the per-segment statistics. -/
def blendGo (selections : List (String × RouteChoice))
    (coordinates : List (ℚ × ℚ × ℚ)) (totalDistance totalGain totalLoss : ℚ) :
    List Analyze.Segment → List (ℚ × ℚ × ℚ) × ℚ × ℚ × ℚ
  | [] => (coordinates, totalDistance, totalGain, totalLoss)
  | segment :: rest =>
      let segmentData := chosenStats selections segment
      let coordinates :=
        if coordinates ≠ [] ∧ segmentData.coordinates ≠ [] then
          coordinates ++ segmentData.coordinates.tail
        else coordinates ++ segmentData.coordinates
      blendGo selections coordinates (totalDistance + segmentData.distanceKm)
        (totalGain + segmentData.elevationGain) (totalLoss + segmentData.elevationLoss) rest

/-- Blended-route assembly (App.tsx buildBlendedRoute): null unless every
diverging segment has a selection, otherwise the spliced coordinates and summed
statistics. -/
def buildBlendedRoute (segments : List Analyze.Segment)
    (selections : List (String × RouteChoice)) : Option BlendedRoute :=
  let diverging := segments.filter fun s => decide (s.type = Analyze.SegType.diverging)
  let allSelected := diverging.all fun s => (mapGet selections s.id).isSome
  if allSelected then
    let acc := blendGo selections [] 0 0 0 segments
    some { coordinates := acc.1, distanceKm := acc.2.1, elevationGain := acc.2.2.1,
           elevationLoss := acc.2.2.2, selections := selections }
  else none

end App

namespace DaySplits

/-- Cumulative-distance loop of calculateCumulativeDistances for the
coordinates after the first; coordinates are (lng, lat, elevation) triples. -/
def cumGo (dist : DistFn) (prev : ℚ × ℚ × ℚ) (cum : ℚ) : List (ℚ × ℚ × ℚ) → List ℚ
  | [] => []
  | c :: rest =>
      let d := cum + dist prev.2.1 prev.1 c.2.1 c.1
      d :: cumGo dist c d rest

/-- Cumulative distances of the day-split module: the source initialises the
list to [0] before the loop, so even an empty coordinate list yields [0]. -/
def calculateCumulativeDistances (dist : DistFn) (coordinates : List (ℚ × ℚ × ℚ)) :
    List ℚ :=
  match coordinates with
  | [] => [0]
  | c0 :: rest => 0 :: cumGo dist c0 0 rest

/-- Percentage-to-index conversion of the day-split module: 0% and 100% map
directly to the first and last index, interior percentages binary-search the
cumulative distances with the same closest-index selection as
findPointAtDistance. -/
def percentageToCoordIndex (percentage : ℚ) (cumulativeDistances : List ℚ)
    (totalDistance : ℚ) : ℕ :=
  if percentage ≤ 0 then 0
  else if 100 ≤ percentage then cumulativeDistances.length - 1
  else
    let targetDistance := percentage / 100 * totalDistance
    Gpx.closestIdx cumulativeDistances targetDistance

/-- Pairwise statistics loop of the day-split calculateSegmentStats: per-edge
distance plus signed elevation delta split into gain/loss. -/
def pairStatsGo (dist : DistFn) (prev : ℚ × ℚ × ℚ) (d g l : ℚ) :
    List (ℚ × ℚ × ℚ) → ℚ × ℚ × ℚ
  | [] => (d, g, l)
  | c :: rest =>
      let d := d + dist prev.2.1 prev.1 c.2.1 c.1
      let diff := c.2.2 - prev.2.2
      if 0 < diff then pairStatsGo dist c d (g + diff) l rest
      else pairStatsGo dist c d g (l + absQ diff) rest

/-- Segment statistics of the day-split module over the coordinate sub-range
[startIndex, endIndex] (the source's index loop reads exactly the adjacent
pairs of this slice; indices are in range at every call site). -/
def calculateSegmentStats (dist : DistFn) (coordinates : List (ℚ × ℚ × ℚ))
    (startIndex endIndex : ℕ) : ℚ × ℚ × ℚ :=
  match (coordinates.drop startIndex).take (endIndex + 1 - startIndex) with
  | [] => (0, 0, 0)
  | c0 :: rest => pairStatsGo dist c0 0 0 0 rest

/-- DaySplit record of the day-split module. -/
structure DaySplit where
  dayNumber : ℕ
  startPercentage : ℚ
  endPercentage : ℚ
  startCoordIndex : ℕ
  endCoordIndex : ℕ
  distanceKm : ℚ
  elevationGain : ℚ
  elevationLoss : ℚ
deriving Repr, DecidableEq, Inhabited

/-- Boundary-pair loop of generateDaySplits, indexed from 0: one DaySplit per
consecutive boundary pair. -/
def splitsGo (dist : DistFn) (coordinates : List (ℚ × ℚ × ℚ))
    (cumulativeDistances : List ℚ) (totalDistance : ℚ) :
    ℕ → List ℚ → List DaySplit
  | _, [] => []
  | _, [_] => []
  | i, b1 :: b2 :: rest =>
      let startCoordIndex := percentageToCoordIndex b1 cumulativeDistances totalDistance
      let endCoordIndex := percentageToCoordIndex b2 cumulativeDistances totalDistance
      let stats := calculateSegmentStats dist coordinates startCoordIndex endCoordIndex
      { dayNumber := i + 1
        startPercentage := b1
        endPercentage := b2
        startCoordIndex := startCoordIndex
        endCoordIndex := endCoordIndex
        distanceKm := stats.1
        elevationGain := stats.2.1
        elevationLoss := stats.2.2 } ::
        splitsGo dist coordinates cumulativeDistances totalDistance (i + 1) (b2 :: rest)

/-- Day-split generation (generateDaySplits of the day-split module): the
breakpoints are sorted ascending, bracketed by 0 and 100, and each consecutive
boundary pair yields one DaySplit. -/
def generateDaySplits (dist : DistFn) (blendedRoute : App.BlendedRoute)
    (breakpoints : List ℚ) : List DaySplit :=
  let coordinates := blendedRoute.coordinates
  let totalDistance := blendedRoute.distanceKm
  let cumulativeDistances := calculateCumulativeDistances dist coordinates
  let boundaries := 0 :: ((breakpoints.mergeSort fun a b => decide (a ≤ b)) ++ [100])
  splitsGo dist coordinates cumulativeDistances totalDistance 0 boundaries

end DaySplits

namespace SpecSide

/-- Projection of a profile point onto everything except the grade, used to
state frame conditions for grade smoothing. -/
def stripGrade (p : Gpx.ElevationPoint) : ℚ × ℚ × ℚ × ℚ :=
  (p.distance, p.elevation, p.lat, p.lng)

/-- Unsigned sum of the positive deltas between consecutive values, following
the spec's description of elevationGain. -/
def posDeltaSum (es : List ℚ) : ℚ :=
  ((es.zip es.tail).map fun p => max (p.2 - p.1) 0).sum

/-- Unsigned sum of the negative deltas between consecutive values, following
the spec's description of elevationLoss. -/
def negDeltaSum (es : List ℚ) : ℚ :=
  ((es.zip es.tail).map fun p => max (p.1 - p.2) 0).sum

end SpecSide

namespace Ex

/-- Distance function for concrete instances: points are laid out along a
single meridian, where the geodesic distance is proportional to the latitude
difference (the proportionality constant is absorbed into the stored
latitudes, which are in route metres). -/
def exDist : DistFn := fun lat1 _ lat2 _ => absQ (lat2 - lat1)

/-- Primary (gravel) track of the segmentation counterexample: nine points in
a straight line, 100 m apart (total 800 m). -/
def gravelEx : List Analyze.Coordinate :=
  (List.range 9).map fun i => { lng := 0, lat := 100 * i, elevation := 0 }

/-- Secondary (tarmac) track of the segmentation counterexample: the first
500 m of the same line, so the primary diverges past 500 m. -/
def tarmacEx : List Analyze.Coordinate :=
  (List.range 5).map fun i => { lng := 0, lat := 100 * i, elevation := 0 }

/-- Transition list for the merge-pass counterexample: spans of 600 m, 500 m
and 100 m; only the last span is below the 500 m minimum. -/
def transEx : List Analyze.Transition :=
  [⟨0, true⟩, ⟨600, false⟩, ⟨1100, true⟩, ⟨1200, false⟩]

/-- SegmentStats with no coordinates (a valid SegmentStats value, as produced
by calculateSegmentStats on an empty section). -/
def statsEmpty : Analyze.SegmentStats :=
  { coordinates := [], distanceKm := 0, elevationGain := 0, elevationLoss := 0 }

/-- SegmentStats with two coordinates. -/
def statsTwo : Analyze.SegmentStats :=
  { coordinates := [(0, 0, 0), (1, 1, 1)], distanceKm := 1, elevationGain := 2,
    elevationLoss := 3 }

/-- Shared segment whose stats carry no coordinates. -/
def segEmptyShared : Analyze.Segment :=
  { id := "seg-1", type := Analyze.SegType.shared, order := 1, gravel := statsEmpty,
    tarmac := statsEmpty }

/-- Shared segment with two coordinates, order 1. -/
def segShared1 : Analyze.Segment :=
  { id := "seg-1", type := Analyze.SegType.shared, order := 1, gravel := statsTwo,
    tarmac := statsTwo }

/-- Shared segment with two coordinates, order 2. -/
def segShared2 : Analyze.Segment :=
  { id := "seg-2", type := Analyze.SegType.shared, order := 2, gravel := statsTwo,
    tarmac := statsTwo }

/-- Diverging segment with two coordinates, order 2. -/
def segDiv2 : Analyze.Segment :=
  { id := "seg-2", type := Analyze.SegType.diverging, order := 2, gravel := statsTwo,
    tarmac := statsTwo }

/-- Diverging segment with two coordinates, order 3. -/
def segDiv3 : Analyze.Segment :=
  { id := "seg-3", type := Analyze.SegType.diverging, order := 3, gravel := statsTwo,
    tarmac := statsTwo }

/-- Complete selection map for the two diverging segments above. -/
def selW : List (String × App.RouteChoice) :=
  [("seg-2", App.RouteChoice.gravel), ("seg-3", App.RouteChoice.tarmac)]

/-- Profile with three coincident points (equal lat/lng, hence equal stored
distances) whose elevations differ, as a GPS track may record. -/
def profileDup : List Gpx.ElevationPoint :=
  [{ distance := 0, elevation := 100, lat := 5, lng := 5, grade := 0 },
   { distance := 0, elevation := 200, lat := 5, lng := 5, grade := 0 },
   { distance := 0, elevation := 300, lat := 5, lng := 5, grade := 0 }]

/-- Blended route for the day-split witnesses: eleven points 1 km apart along
a meridian, total distance 10 km. -/
def routeW : App.BlendedRoute :=
  { coordinates := (List.range 11).map fun i => ((0 : ℚ), (i : ℚ), (0 : ℚ))
    distanceKm := 10, elevationGain := 0, elevationLoss := 0, selections := [] }

/-- Five-point profile for the downsampling witness. -/
def profileW5 : List Gpx.ElevationPoint :=
  (List.range 5).map fun i =>
    { distance := i, elevation := i, lat := 0, lng := 0, grade := 0 }

end Ex

/-! ### Helper lemmas and claim theorems -/

namespace Gpx

theorem smoothGo_strip (profile : List ElevationPoint) (w : ℕ) :
    ∀ (i : ℕ) (l : List ElevationPoint),
      (smoothGo profile w i l).map SpecSide.stripGrade = l.map SpecSide.stripGrade
  | _, [] => rfl
  | i, p :: rest => by
      simp only [smoothGo, List.map_cons, smoothGo_strip profile w (i + 1) rest]
      rfl

theorem statsGo_eq (es : List ℚ) : ∀ prev gain loss : ℚ,
    statsGo prev gain loss es =
      (gain + SpecSide.posDeltaSum (prev :: es), loss + SpecSide.negDeltaSum (prev :: es)) := by
  induction es with
  | nil =>
      intro prev gain loss
      simp [statsGo, SpecSide.posDeltaSum, SpecSide.negDeltaSum]
  | cons e rest ih =>
      intro prev gain loss
      simp only [statsGo]
      rcases lt_or_le 0 (e - prev) with h | h
      · rw [if_pos h, ih]
        simp only [SpecSide.posDeltaSum, SpecSide.negDeltaSum, List.tail_cons, List.zip_cons_cons,
          List.map_cons, List.sum_cons, Prod.mk.injEq]
        constructor
        · rw [max_eq_left (le_of_lt h)]; ring
        · rw [max_eq_right (by linarith)]; ring
      · rw [if_neg (not_lt.mpr h), ih]
        simp only [SpecSide.posDeltaSum, SpecSide.negDeltaSum, List.tail_cons, List.zip_cons_cons,
          List.map_cons, List.sum_cons, Prod.mk.injEq]
        constructor
        · rw [max_eq_right (by linarith)]; ring
        · rw [max_eq_left (by linarith)]
          rw [show absQ (e - prev) = prev - e by rw [absQ]; rcases lt_or_eq_of_le h with h2 | h2; rw [if_pos h2]; ring; rw [h2]; simp; linarith]
          ring

theorem calculateStats_gain (profile : List ElevationPoint) :
    (calculateStats profile).elevationGain = SpecSide.posDeltaSum (profile.map fun p => p.elevation) := by
  cases profile with
  | nil => simp [calculateStats, SpecSide.posDeltaSum]
  | cons p rest =>
      simp only [calculateStats, List.map_cons]
      rw [statsGo_eq]
      simp

theorem calculateStats_loss (profile : List ElevationPoint) :
    (calculateStats profile).elevationLoss = SpecSide.negDeltaSum (profile.map fun p => p.elevation) := by
  cases profile with
  | nil => simp [calculateStats, SpecSide.negDeltaSum]
  | cons p rest =>
      simp only [calculateStats, List.map_cons]
      rw [statsGo_eq]
      simp

theorem smoothGrade_map_elevation (profile : List ElevationPoint) (w : ℕ) :
    (smoothGrade profile w).map (fun p => p.elevation) = profile.map fun p => p.elevation := by
  have h := smoothGo_strip profile w 0 profile
  have h2 := congrArg (List.map fun q : ℚ × ℚ × ℚ × ℚ => q.2.1) h
  simpa [smoothGrade, List.map_map, Function.comp, SpecSide.stripGrade] using h2

end Gpx

/-- C8: grade smoothing changes only the grade field (distance, elevation, lat
and lng of every profile point are identical before and after smoothGrade),
and elevationGain/elevationLoss of calculateStats are the unsigned sums of the
positive/negative deltas of the unsmoothed elevation values, so smoothing does
not affect gain or loss. -/
theorem C8_smoothGrade_frame (profile : List Gpx.ElevationPoint) (windowSize : ℕ) :
    ((Gpx.smoothGrade profile windowSize).map SpecSide.stripGrade
        = profile.map SpecSide.stripGrade)
    ∧ (Gpx.calculateStats (Gpx.smoothGrade profile windowSize)).elevationGain
        = SpecSide.posDeltaSum (profile.map fun p => p.elevation)
    ∧ (Gpx.calculateStats (Gpx.smoothGrade profile windowSize)).elevationLoss
        = SpecSide.negDeltaSum (profile.map fun p => p.elevation)
    ∧ (Gpx.calculateStats profile).elevationGain
        = SpecSide.posDeltaSum (profile.map fun p => p.elevation)
    ∧ (Gpx.calculateStats profile).elevationLoss
        = SpecSide.negDeltaSum (profile.map fun p => p.elevation) := by
  refine ⟨Gpx.smoothGo_strip profile windowSize 0 profile, ?_, ?_,
    Gpx.calculateStats_gain profile, Gpx.calculateStats_loss profile⟩
  · rw [Gpx.calculateStats_gain, Gpx.smoothGrade_map_elevation]
  · rw [Gpx.calculateStats_loss, Gpx.smoothGrade_map_elevation]

theorem map_getD_sublist {α : Type _} (d : α) :
    ∀ (l : List α) (idxs : List ℕ), idxs.Pairwise (· < ·) →
      (∀ i ∈ idxs, i < l.length) →
      List.Sublist (idxs.map fun i => l.getD i d) l := by
  intro l
  induction l with
  | nil =>
      intro idxs _ hb
      cases idxs with
      | nil => simp
      | cons i it => exact absurd (hb i (by simp)) (by simp)
  | cons a l ih =>
      intro idxs hp hb
      cases idxs with
      | nil => simp
      | cons i it =>
        by_cases hi : i = 0
        · subst hi
          have h1 : ∀ j ∈ it, 1 ≤ j := by
            intro j hj
            have := (List.pairwise_cons.mp hp).1 j hj
            omega
          have hmap : (it.map fun j => (a :: l).getD j d)
              = (it.map fun j => j - 1).map fun j => l.getD j d := by
            rw [List.map_map]
            refine List.map_congr_left fun j hj => ?_
            have hj1 := h1 j hj
            cases j with
            | zero => omega
            | succ j2 => simp
          simp only [List.map_cons, List.getD_cons_zero, hmap]
          refine List.Sublist.cons₂ a (ih _ ?_ ?_)
          · refine List.pairwise_map.mpr (((List.pairwise_cons.mp hp).2).imp_of_mem ?_)
            intro x y hx hy hxy
            have := h1 x hx
            omega
          · intro j hj
            obtain ⟨j2, hj2, rfl⟩ := List.mem_map.mp hj
            have hb2 := hb j2 (by simp [hj2])
            have := h1 j2 hj2
            simp only [List.length_cons] at hb2
            omega
        · have h1 : ∀ j ∈ i :: it, 1 ≤ j := by
            intro j hj
            rcases List.mem_cons.mp hj with rfl | hj2
            · omega
            · have := (List.pairwise_cons.mp hp).1 j hj2
              omega
          have hmap : ((i :: it).map fun j => (a :: l).getD j d)
              = ((i :: it).map fun j => j - 1).map fun j => l.getD j d := by
            rw [List.map_map]
            refine List.map_congr_left fun j hj => ?_
            have hj1 := h1 j hj
            cases j with
            | zero => omega
            | succ j2 => simp
          rw [hmap]
          refine List.Sublist.cons a (ih _ ?_ ?_)
          · refine List.pairwise_map.mpr (hp.imp_of_mem ?_)
            intro x y hx hy hxy
            have := h1 x hx
            omega
          · intro j hj
            obtain ⟨j2, hj2, rfl⟩ := List.mem_map.mp hj
            have hb2 := hb j2 hj2
            have := h1 j2 hj2
            simp only [List.length_cons] at hb2
            omega

theorem length_filter_mod_le (n s m : ℕ) (hs : 0 < s) (hn : n ≤ s * m) :
    ((List.range n).filter fun i => i % s = 0).length ≤ m := by
  set l := (List.range n).filter fun i => i % s = 0 with hl
  have hnd : l.Nodup := (List.nodup_range n).filter _
  have hmem : ∀ x ∈ l, x < n ∧ x % s = 0 := by
    intro x hx
    have h2 := List.mem_filter.mp hx
    exact ⟨List.mem_range.mp h2.1, by simpa using h2.2⟩
  have hinj : ∀ x ∈ l, ∀ y ∈ l, x / s = y / s → x = y := by
    intro x hx y hy hxy
    have hx2 := (hmem x hx).2
    have hy2 := (hmem y hy).2
    have hx3 : x / s * s = x := Nat.div_mul_cancel (Nat.dvd_of_mod_eq_zero hx2)
    have hy3 : y / s * s = y := Nat.div_mul_cancel (Nat.dvd_of_mod_eq_zero hy2)
    rw [← hx3, ← hy3, hxy]
  have hnd2 : (l.map fun x => x / s).Nodup := hnd.map_on hinj
  have hsub : ∀ y ∈ l.map fun x => x / s, y < m := by
    intro y hy
    obtain ⟨x, hx, rfl⟩ := List.mem_map.mp hy
    exact Nat.div_lt_of_lt_mul (lt_of_lt_of_le (hmem x hx).1 hn)
  have hcard : (l.map fun x => x / s).length ≤ m := by
    have h3 : (l.map fun x => x / s).toFinset ⊆ Finset.range m := by
      intro y hy
      rw [List.mem_toFinset] at hy
      exact Finset.mem_range.mpr (hsub y hy)
    calc (l.map fun x => x / s).length
        = (l.map fun x => x / s).toFinset.card := (List.toFinset_card_of_nodup hnd2).symm
      _ ≤ (Finset.range m).card := Finset.card_le_card h3
      _ = m := Finset.card_range m
  simpa using hcard

theorem mem_le_getLastD_of_pairwise_lt :
    ∀ (l : List ℕ), l.Pairwise (· < ·) → ∀ x ∈ l, x ≤ l.getLastD 0 := by
  intro l
  induction l with
  | nil => intro _ x hx; simp at hx
  | cons a t ih =>
      intro hp x hx
      cases t with
      | nil =>
          rcases List.mem_cons.mp hx with rfl | h2
          · simp
          · simp at h2
      | cons b t2 =>
          have hlast : (a :: b :: t2).getLastD 0 = (b :: t2).getLastD 0 := by
            simp [List.getLastD]
          rw [hlast]
          rcases List.mem_cons.mp hx with rfl | h2
          · have hab : x < b := (List.pairwise_cons.mp hp).1 b (by simp)
            have := ih (List.pairwise_cons.mp hp).2 b (by simp)
            omega
          · exact ih (List.pairwise_cons.mp hp).2 x h2

theorem getLastD_mem_of_ne_nil {α : Type _} (d : α) (l : List α) (h : l ≠ []) :
    l.getLastD d ∈ l := by
  rw [List.getLastD_eq_getLast?, List.getLast?_eq_getLast l h]
  simp [List.getLast_mem]

theorem getLast?_map_of_ne_nil {α : Type _} (f : ℕ → α) :
    ∀ (l : List ℕ), l ≠ [] → (l.map f).getLast? = some (f (l.getLastD 0)) := by
  intro l
  induction l with
  | nil => intro h; exact absurd rfl h
  | cons a t ih =>
      intro _
      cases t with
      | nil => simp [List.getLastD]
      | cons b t2 =>
          have h2 := ih (by simp)
          simp only [List.map_cons] at h2 ⊢
          rw [List.getLast?_cons_cons, h2]
          simp [List.getLastD]

theorem getLast?_eq_getD {α : Type _} (d : α) :
    ∀ (l : List α), l ≠ [] → l.getLast? = some (l.getD (l.length - 1) d) := by
  intro l
  induction l with
  | nil => intro h; exact absurd rfl h
  | cons a t ih =>
      intro _
      cases t with
      | nil => simp
      | cons b t2 =>
          rw [List.getLast?_cons_cons, ih (by simp)]
          simp

/-- C10: for every profile longer than maxPoints with maxPoints at least 1,
downsampleProfile returns an ordered subsequence of the input whose last
element is the input's last point and whose length is at most maxPoints + 1
(the witness instantiates a case where the length is exactly maxPoints + 1,
the stride missing the final index). -/
theorem C10_downsampleProfile (profile : List Gpx.ElevationPoint) (maxPoints : ℕ)
    (hmp : 1 ≤ maxPoints) (hlen : maxPoints < profile.length) :
    List.Sublist (Gpx.downsampleProfile profile maxPoints) profile
    ∧ (Gpx.downsampleProfile profile maxPoints).getLast? = profile.getLast?
    ∧ (Gpx.downsampleProfile profile maxPoints).length ≤ maxPoints + 1 := by
  have hn1 : 1 ≤ profile.length := le_trans hmp (le_of_lt hlen)
  rw [Gpx.downsampleProfile, if_neg (by omega : ¬ profile.length ≤ maxPoints)]
  dsimp only
  set n := profile.length with hn
  set s := (n + maxPoints - 1) / maxPoints with hs
  set picked := (List.range n).filter fun i => i % s = 0 with hpicked
  have hspos : 0 < s := by
    rw [hs]
    have : maxPoints ≤ n + maxPoints - 1 := by omega
    exact Nat.one_le_div_iff (by omega) |>.mpr this
  have hnsm : n ≤ s * maxPoints := by
    have hdm := Nat.div_add_mod (n + maxPoints - 1) maxPoints
    have hmod : (n + maxPoints - 1) % maxPoints < maxPoints := Nat.mod_lt _ (by omega)
    have heq : s * maxPoints = maxPoints * ((n + maxPoints - 1) / maxPoints) := by
      rw [hs, Nat.mul_comm]
    omega
  have hpick_pw : picked.Pairwise (· < ·) := (List.pairwise_lt_range n).filter _
  have hpick_lt : ∀ x ∈ picked, x < n := by
    intro x hx
    exact List.mem_range.mp (List.mem_filter.mp hx).1
  have hpick_len : picked.length ≤ maxPoints := length_filter_mod_le n s maxPoints hspos hnsm
  have hpick_ne : picked ≠ [] := by
    have h0 : 0 ∈ picked := by
      rw [hpicked]
      refine List.mem_filter.mpr ⟨List.mem_range.mpr (by omega), by simp⟩
    intro hcon
    rw [hcon] at h0
    simp at h0
  by_cases hend : picked.getLastD 0 = n - 1
  · rw [if_pos hend]
    refine ⟨map_getD_sublist _ profile picked hpick_pw (by intro i hi; exact hpick_lt i hi), ?_, ?_⟩
    · rw [getLast?_map_of_ne_nil _ picked hpick_ne, hend,
        getLast?_eq_getD default profile (List.ne_nil_of_length_pos (by omega))]
    · rw [List.length_map]
      omega
  · rw [if_neg hend]
    have hallne : ∀ x ∈ picked, x < n - 1 := by
      intro x hx
      have h1 := mem_le_getLastD_of_pairwise_lt picked hpick_pw x hx
      have h2 := hpick_lt x hx
      have h3 : picked.getLastD 0 ∈ picked := getLastD_mem_of_ne_nil 0 picked hpick_ne
      have h4 := hpick_lt _ h3
      omega
    have hpw2 : (picked ++ [n - 1]).Pairwise (· < ·) := by
      rw [List.pairwise_append]
      refine ⟨hpick_pw, by simp, ?_⟩
      intro x hx y hy
      rw [List.mem_singleton] at hy
      subst hy
      exact hallne x hx
    refine ⟨map_getD_sublist _ profile (picked ++ [n - 1]) hpw2 ?_, ?_, ?_⟩
    · intro i hi
      rcases List.mem_append.mp hi with h | h
      · exact hpick_lt i h
      · rw [List.mem_singleton] at h; omega
    · rw [getLast?_map_of_ne_nil _ (picked ++ [n - 1]) (by simp),
        getLast?_eq_getD default profile (List.ne_nil_of_length_pos (by omega))]
      have : (picked ++ [n - 1]).getLastD 0 = n - 1 := by
        rw [List.getLastD_concat]
      rw [this]
    · rw [List.length_map, List.length_append]
      simp only [List.length_singleton]
      omega

/-- C10 witness: a five-point profile downsampled to at most two points; the
result is a subsequence ending at the last point whose length is exactly
maxPoints + 1 = 3, exhibiting the one-point overshoot. -/
theorem C10_downsampleProfile_witness :
    (1 ≤ 2 ∧ 2 < Ex.profileW5.length)
    ∧ (List.Sublist (Gpx.downsampleProfile Ex.profileW5 2) Ex.profileW5
       ∧ (Gpx.downsampleProfile Ex.profileW5 2).getLast? = Ex.profileW5.getLast?
       ∧ (Gpx.downsampleProfile Ex.profileW5 2).length ≤ 2 + 1)
    ∧ (Gpx.downsampleProfile Ex.profileW5 2).length = 3 :=
  ⟨⟨by decide, by decide⟩, C10_downsampleProfile Ex.profileW5 2 (by decide) (by decide),
    by decide⟩

theorem absQ_eq_abs (q : ℚ) : absQ q = |q| := by
  rw [absQ]
  rcases lt_or_le q 0 with h | h
  · rw [if_pos h, abs_of_neg h]
  · rw [if_neg (not_lt.mpr h), abs_of_nonneg h]

theorem absQ_nonneg (q : ℚ) : 0 ≤ absQ q := by
  rw [absQ_eq_abs]; exact abs_nonneg q

namespace Gpx

theorem sorted_getD_mono (ds : List ℚ) (hsort : ds.Pairwise (· ≤ ·)) {i j : ℕ}
    (hij : i ≤ j) (hj : j < ds.length) : ds.getD i 0 ≤ ds.getD j 0 := by
  rcases Nat.eq_or_lt_of_le hij with rfl | h
  · exact le_refl _
  · have hi : i < ds.length := lt_trans h hj
    rw [List.getD_eq_getElem _ _ hi, List.getD_eq_getElem _ _ hj]
    have := List.pairwise_iff_get.mp hsort ⟨i, hi⟩ ⟨j, hj⟩ h
    simpa using this

theorem bsearchFuel_spec (ds : List ℚ) (target : ℚ) (hsort : ds.Pairwise (· ≤ ·)) :
    ∀ (fuel left right : ℕ), right - left ≤ fuel → left ≤ right → right < ds.length →
      (∀ k < left, ds.getD k 0 < target) →
      (target ≤ ds.getD right 0 ∨ right = ds.length - 1) →
      left ≤ bsearchFuel ds target fuel left right ∧
      bsearchFuel ds target fuel left right ≤ right ∧
      (∀ k < bsearchFuel ds target fuel left right, ds.getD k 0 < target) ∧
      (target ≤ ds.getD (bsearchFuel ds target fuel left right) 0 ∨
        bsearchFuel ds target fuel left right = ds.length - 1) := by
  intro fuel
  induction fuel with
  | zero =>
      intro left right hf hlr _ hP hQ
      have heq : left = right := by omega
      subst heq
      simp only [bsearchFuel]
      exact ⟨le_refl _, le_refl _, hP, hQ⟩
  | succ fuel ih =>
      intro left right hf hlr hr hP hQ
      by_cases h : left < right
      · simp only [bsearchFuel, if_pos h]
        have hmid1 : left ≤ (left + right) / 2 := by omega
        have hmid2 : (left + right) / 2 < right := by omega
        by_cases hc : ds.getD ((left + right) / 2) 0 < target
        · rw [if_pos hc]
          have hP2 : ∀ k < (left + right) / 2 + 1, ds.getD k 0 < target := by
            intro k hk
            rcases lt_or_le k left with hkl | hkl
            · exact hP k hkl
            · exact lt_of_le_of_lt (sorted_getD_mono ds hsort (by omega) (by omega)) hc
          have hrec := ih ((left + right) / 2 + 1) right (by omega) (by omega) hr hP2 hQ
          exact ⟨by omega, hrec.2.1, hrec.2.2.1, hrec.2.2.2⟩
        · rw [if_neg hc]
          have hQ2 : target ≤ ds.getD ((left + right) / 2) 0 ∨
              (left + right) / 2 = ds.length - 1 := Or.inl (not_lt.mp hc)
          have hrec := ih left ((left + right) / 2) (by omega) (by omega) (by omega) hP hQ2
          exact ⟨hrec.1, by omega, hrec.2.2.1, hrec.2.2.2⟩
      · simp only [bsearchFuel, if_neg h]
        have heq : left = right := by omega
        subst heq
        exact ⟨le_refl _, le_refl _, hP, hQ⟩

theorem bsearchGo_spec (ds : List ℚ) (target : ℚ) (hsort : ds.Pairwise (· ≤ ·))
    (hne : 0 < ds.length) :
    bsearchGo ds target 0 (ds.length - 1) ≤ ds.length - 1 ∧
    (∀ k < bsearchGo ds target 0 (ds.length - 1), ds.getD k 0 < target) ∧
    (target ≤ ds.getD (bsearchGo ds target 0 (ds.length - 1)) 0 ∨
      bsearchGo ds target 0 (ds.length - 1) = ds.length - 1) := by
  have h := bsearchFuel_spec ds target hsort (ds.length - 1 - 0) 0 (ds.length - 1)
    (le_refl _) (by omega) (by omega) (by intro k hk; exact absurd hk (Nat.not_lt_zero k))
    (Or.inr rfl)
  rw [bsearchGo]
  exact ⟨h.2.1, h.2.2.1, h.2.2.2⟩

theorem getD_map_dist (profile : List ElevationPoint) (k : ℕ) (hk : k < profile.length) :
    (profile.map fun p => p.distance).getD k 0 = (profile.getD k default).distance := by
  rw [List.getD_eq_getElem _ _ (by simpa using hk), List.getD_eq_getElem _ _ hk]
  simp

theorem closestIdx_exact (ds : List ℚ) (hsort : ds.Pairwise (· ≤ ·)) (i : ℕ)
    (hi : i < ds.length) :
    closestIdx ds (ds.getD i 0) ≤ i ∧
    ds.getD (closestIdx ds (ds.getD i 0)) 0 = ds.getD i 0 ∧
    (∀ k < closestIdx ds (ds.getD i 0), ds.getD k 0 < ds.getD i 0) := by
  have hlen : 0 < ds.length := by omega
  have hspec := bsearchGo_spec ds (ds.getD i 0) hsort hlen
  set b := bsearchGo ds (ds.getD i 0) 0 (ds.length - 1) with hb
  have hbi : b ≤ i := by
    by_contra hcon
    push_neg at hcon
    exact absurd (hspec.2.1 i hcon) (lt_irrefl _)
  have hbeq : ds.getD b 0 = ds.getD i 0 := by
    rcases hspec.2.2 with h2 | h2
    · exact le_antisymm (sorted_getD_mono ds hsort hbi hi) h2
    · have : i = b := by omega
      rw [this]
  have hcond : ¬ (0 < b ∧ absQ (ds.getD (b - 1) 0 - ds.getD i 0)
      < absQ (ds.getD b 0 - ds.getD i 0)) := by
    rintro ⟨_, habs⟩
    rw [hbeq, sub_self] at habs
    have h0 : absQ 0 = 0 := by rw [absQ_eq_abs]; simp
    rw [h0] at habs
    exact absurd habs (not_lt.mpr (absQ_nonneg _))
  have hci : closestIdx ds (ds.getD i 0) = b := by
    simp only [closestIdx, ← hb]
    rw [if_neg hcond]
  rw [hci]
  exact ⟨hbi, hbeq, hspec.2.1⟩

theorem closestIdx_mono (ds : List ℚ) (hsort : ds.Pairwise (· ≤ ·)) (hne : 0 < ds.length)
    (t1 t2 : ℚ) (h12 : t1 ≤ t2) : closestIdx ds t1 ≤ closestIdx ds t2 := by
  have spec1 := bsearchGo_spec ds t1 hsort hne
  have spec2 := bsearchGo_spec ds t2 hsort hne
  set b1 := bsearchGo ds t1 0 (ds.length - 1) with hb1
  set b2 := bsearchGo ds t2 0 (ds.length - 1) with hb2
  have hb12 : b1 ≤ b2 := by
    by_contra hcon
    push_neg at hcon
    have hlt := spec1.2.1 b2 hcon
    rcases spec2.2.2 with h2 | h2
    · linarith
    · omega
  have hc1 : closestIdx ds t1 = if 0 < b1 ∧ absQ (ds.getD (b1 - 1) 0 - t1)
      < absQ (ds.getD b1 0 - t1) then b1 - 1 else b1 := by
    simp only [closestIdx, ← hb1]
  have hc2 : closestIdx ds t2 = if 0 < b2 ∧ absQ (ds.getD (b2 - 1) 0 - t2)
      < absQ (ds.getD b2 0 - t2) then b2 - 1 else b2 := by
    simp only [closestIdx, ← hb2]
  rw [hc1, hc2]
  by_cases hcond2 : 0 < b2 ∧ absQ (ds.getD (b2 - 1) 0 - t2) < absQ (ds.getD b2 0 - t2)
  · rw [if_pos hcond2]
    rcases Nat.lt_or_ge b1 b2 with hlt | hge
    · split
      · omega
      · omega
    · have hbeq : b1 = b2 := by omega
      rw [← hbeq] at hcond2 ⊢
      have hcond1 : 0 < b1 ∧ absQ (ds.getD (b1 - 1) 0 - t1) < absQ (ds.getD b1 0 - t1) := by
        refine ⟨hcond2.1, ?_⟩
        by_contra habs
        push_neg at habs
        have hx1 : ds.getD (b1 - 1) 0 < t1 := spec1.2.1 (b1 - 1) (by omega)
        have hx2 : ds.getD (b1 - 1) 0 < t2 := lt_of_lt_of_le hx1 h12
        have hxy : ds.getD (b1 - 1) 0 ≤ ds.getD b1 0 :=
          sorted_getD_mono ds hsort (by omega) (by omega)
        have habs2 := hcond2.2
        rw [absQ_eq_abs, absQ_eq_abs] at habs habs2
        rw [abs_of_neg (by linarith : ds.getD (b1 - 1) 0 - t1 < 0)] at habs
        rw [abs_of_neg (by linarith : ds.getD (b1 - 1) 0 - t2 < 0)] at habs2
        rcases le_or_lt t2 (ds.getD b1 0) with hy | hy
        · rw [abs_of_nonneg (by linarith : (0:ℚ) ≤ ds.getD b1 0 - t2)] at habs2
          have hyabs : ds.getD b1 0 - t1 ≤ |ds.getD b1 0 - t1| := le_abs_self _
          linarith
        · rw [abs_of_neg (by linarith : ds.getD b1 0 - t2 < 0)] at habs2
          linarith
      rw [if_pos hcond1]
  · rw [if_neg hcond2]
    split
    · omega
    · omega

end Gpx

/-- C7 counterexample: the profile of three coincident points has
non-decreasing stored distances, yet the point-at-distance lookup of the stored
distance of index 2 returns the point at index 0 — neither the point at index
2 nor an adjacent point (index 1), because with duplicate distances the binary
search lands on the first equal entry. -/
theorem C7_counterexample :
    ((Ex.profileDup.map fun p => p.distance).Pairwise (· ≤ ·))
    ∧ Gpx.findPointAtDistance Ex.profileDup ((Ex.profileDup.getD 2 default).distance)
        = some (Ex.profileDup.getD 0 default)
    ∧ Ex.profileDup.getD 0 default ≠ Ex.profileDup.getD 2 default
    ∧ Ex.profileDup.getD 0 default ≠ Ex.profileDup.getD 1 default := by
  refine ⟨?_, ?_, ?_, ?_⟩ <;> with_unfolding_all decide

/-- C7 (amended): for every non-empty profile with non-decreasing stored
distances, findPointAtDistance applied to the stored distance of index i
returns the point at the least index whose stored distance equals that value —
index i itself whenever the distances are strictly increasing up to i — and
returns null for the empty profile. -/
theorem C7_findPointAtDistance_roundtrip (profile : List Gpx.ElevationPoint) (i : ℕ)
    (hsort : (profile.map fun p => p.distance).Pairwise (· ≤ ·))
    (hi : i < profile.length) :
    (∃ j : ℕ, j ≤ i ∧
      Gpx.findPointAtDistance profile ((profile.getD i default).distance)
        = some (profile.getD j default)
      ∧ (profile.getD j default).distance = (profile.getD i default).distance
      ∧ ∀ k < j, (profile.getD k default).distance < (profile.getD i default).distance)
    ∧ Gpx.findPointAtDistance [] ((profile.getD i default).distance) = none := by
  refine ⟨?_, rfl⟩
  have hne : profile ≠ [] := by
    intro hcon
    rw [hcon] at hi
    simp at hi
  have hlen : i < (profile.map fun p => p.distance).length := by simpa using hi
  have hx := Gpx.closestIdx_exact (profile.map fun p => p.distance) hsort i hlen
  rw [Gpx.getD_map_dist profile i hi] at hx
  set j := Gpx.closestIdx (profile.map fun p => p.distance)
    ((profile.getD i default).distance) with hj
  refine ⟨j, hx.1, ?_, ?_, ?_⟩
  · cases hp : profile with
    | nil => exact absurd hp hne
    | cons p rest =>
        rw [Gpx.findPointAtDistance]
        rw [← hp]
  · rw [← Gpx.getD_map_dist profile j (by omega)]
    exact hx.2.1
  · intro k hk
    rw [← Gpx.getD_map_dist profile k (by omega)]
    exact hx.2.2 k hk

/-- C7 witness: the amended round-trip applied to a strictly increasing
five-point profile at index 3, where the returned index is exactly 3. -/
theorem C7_findPointAtDistance_witness :
    ((Ex.profileW5.map fun p => p.distance).Pairwise (· ≤ ·) ∧ 3 < Ex.profileW5.length)
    ∧ ((∃ j : ℕ, j ≤ 3 ∧
        Gpx.findPointAtDistance Ex.profileW5 ((Ex.profileW5.getD 3 default).distance)
          = some (Ex.profileW5.getD j default)
        ∧ (Ex.profileW5.getD j default).distance = (Ex.profileW5.getD 3 default).distance
        ∧ ∀ k < j, (Ex.profileW5.getD k default).distance
            < (Ex.profileW5.getD 3 default).distance)
      ∧ Gpx.findPointAtDistance [] ((Ex.profileW5.getD 3 default).distance) = none) :=
  ⟨⟨by with_unfolding_all decide, by decide⟩,
    C7_findPointAtDistance_roundtrip Ex.profileW5 3 (by with_unfolding_all decide)
      (by decide)⟩

namespace Analyze

theorem mergeGo_spec (minLength : ℚ) :
    ∀ (rest stack : List Transition), stack ≠ [] →
      List.Chain' (fun a b => minLength ≤ a.distance - b.distance) stack.dropLast →
      mergeGo minLength stack rest ≠ [] ∧
      (mergeGo minLength stack rest).head? = stack.getLast? ∧
      List.Chain' (fun a b => minLength ≤ b.distance - a.distance)
        (mergeGo minLength stack rest).tail ∧
      (mergeGo minLength stack rest).Sublist (stack.reverse ++ rest) := by
  intro rest
  induction rest with
  | nil =>
      intro stack hne hch
      simp only [mergeGo]
      refine ⟨by simpa using hne, by simp, ?_, by simp⟩
      rw [List.tail_reverse_eq_reverse_dropLast, List.chain'_reverse]
      exact hch
  | cons current rest ih =>
      intro stack hne hch
      cases stack with
      | nil => exact absurd rfl hne
      | cons lastMerged stackRest =>
          simp only [mergeGo]
          by_cases hcond : current.distance - lastMerged.distance < minLength ∧ stackRest ≠ []
          · rw [if_pos hcond]
            have hsrne : stackRest ≠ [] := hcond.2
            cases stackRest with
            | nil => exact absurd rfl hsrne
            | cons b t =>
                have hch2 : List.Chain' (fun a b => minLength ≤ a.distance - b.distance)
                    (b :: t).dropLast := by
                  have : (lastMerged :: b :: t).dropLast
                      = lastMerged :: (b :: t).dropLast := by simp
                  rw [this] at hch
                  exact (List.chain'_cons'.mp hch).2
                have hrec := ih (b :: t) (by simp) hch2
                refine ⟨hrec.1, ?_, hrec.2.2.1, ?_⟩
                · rw [hrec.2.1, List.getLast?_cons_cons]
                · refine hrec.2.2.2.trans ?_
                  have heq : (lastMerged :: b :: t).reverse ++ current :: rest
                      = (b :: t).reverse ++ (lastMerged :: current :: rest) := by
                    rw [List.reverse_cons, List.append_assoc]
                    rfl
                  rw [heq]
                  exact List.Sublist.append_left
                    (List.Sublist.cons lastMerged (List.Sublist.cons current (List.Sublist.refl rest))) _
          · rw [if_neg hcond]
            have hch2 : List.Chain' (fun a b => minLength ≤ a.distance - b.distance)
                (current :: lastMerged :: stackRest).dropLast := by
              have : (current :: lastMerged :: stackRest).dropLast
                  = current :: (lastMerged :: stackRest).dropLast := by simp
              rw [this]
              refine List.chain'_cons'.mpr ⟨?_, hch⟩
              intro y hy
              cases stackRest with
              | nil => simp at hy
              | cons b t =>
                  have : (lastMerged :: b :: t).dropLast
                      = lastMerged :: (b :: t).dropLast := by simp
                  rw [this] at hy
                  simp only [List.head?_cons, Option.mem_def, Option.some.injEq] at hy
                  subst hy
                  by_contra habs
                  push_neg at habs
                  exact hcond ⟨by linarith, by simp⟩
            have hrec := ih (current :: lastMerged :: stackRest) (by simp) hch2
            refine ⟨hrec.1, ?_, hrec.2.2.1, ?_⟩
            · rw [hrec.2.1, List.getLast?_cons_cons]
            · refine hrec.2.2.2.trans ?_
              have heq : (current :: lastMerged :: stackRest).reverse ++ rest
                  = (lastMerged :: stackRest).reverse ++ (current :: rest) := by
                rw [List.reverse_cons, List.append_assoc]
                rfl
              rw [heq]

theorem mergeSmallSegments_spec (transitions : List Transition) (minLength : ℚ)
    (hne : transitions ≠ []) :
    mergeSmallSegments transitions minLength ≠ [] ∧
    (mergeSmallSegments transitions minLength).head? = transitions.head? ∧
    List.Chain' (fun a b => minLength ≤ b.distance - a.distance)
      (mergeSmallSegments transitions minLength).tail ∧
    (mergeSmallSegments transitions minLength).Sublist transitions := by
  cases transitions with
  | nil => exact absurd rfl hne
  | cons t0 rest =>
      cases rest with
      | nil =>
          simp only [mergeSmallSegments]
          exact ⟨by simp, by simp, by simp, by simp⟩
      | cons t1 rest2 =>
          have h := mergeGo_spec minLength (t1 :: rest2) [t0] (by simp) (by simp)
          simp only [mergeSmallSegments]
          refine ⟨h.1, ?_, h.2.2.1, ?_⟩
          · rw [h.2.1]
            simp
          · have := h.2.2.2
            simpa using this

end Analyze

set_option maxRecDepth 10000 in
/-- C4 counterexample: on the transition list with spans 600 m, 500 m, 100 m
(only the final span below the 500 m minimum), the merge pass deletes BOTH
boundaries of the short span — the result keeps only two of the four
transitions — whereas collapsing the short span into the preceding span by
deleting its (single) transition boundary would leave three. -/
theorem C4_counterexample :
    Analyze.mergeSmallSegments Ex.transEx 500
      = [⟨0, true⟩, ⟨600, false⟩]
    ∧ (Analyze.mergeSmallSegments Ex.transEx 500).length ≠ Ex.transEx.length - 1 := by
  constructor
  · with_unfolding_all decide
  · with_unfolding_all decide

/-- C4 (amended): after the merge pass over any transition list with at least
two spans pre-merge, every span other than the first — in particular every
interior span — is at least the minimum length threshold; the merged list is a
subsequence of the input that retains the first transition.  A span shorter
than the minimum is collapsed into the preceding span by deleting both its
starting and its ending transition boundaries (not only one), unless the
accumulated list holds a single transition. -/
theorem C4_mergeSmallSegments_interior (transitions : List Analyze.Transition)
    (minLength : ℚ) (hpre : 3 ≤ transitions.length) :
    (∀ i : ℕ, 1 ≤ i → i + 1 < (Analyze.mergeSmallSegments transitions minLength).length →
      minLength ≤ ((Analyze.mergeSmallSegments transitions minLength).getD (i + 1) default).distance
        - ((Analyze.mergeSmallSegments transitions minLength).getD i default).distance)
    ∧ (Analyze.mergeSmallSegments transitions minLength).Sublist transitions
    ∧ (Analyze.mergeSmallSegments transitions minLength).head? = transitions.head? := by
  have hne : transitions ≠ [] := by
    intro hcon
    rw [hcon] at hpre
    simp at hpre
  have h := Analyze.mergeSmallSegments_spec transitions minLength hne
  refine ⟨?_, h.2.2.2, h.2.1⟩
  intro i h1 h2
  set M := Analyze.mergeSmallSegments transitions minLength with hM
  have htl : i - 1 < M.tail.length - 1 := by
    rw [List.length_tail]
    omega
  have hch := List.chain'_iff_get.mp h.2.2.1 (i - 1) htl
  have hi1 : i - 1 < M.tail.length := by omega
  have hi2 : i - 1 + 1 < M.tail.length := by
    rw [List.length_tail] at htl ⊢
    omega
  rw [List.get_tail M (i - 1) hi1, List.get_tail M (i - 1 + 1) hi2] at hch
  have hgd1 : M.getD i default = M.get ⟨i - 1 + 1, by rw [List.length_tail] at hi1; omega⟩ := by
    rw [List.getD_eq_getElem _ _ (by rw [List.length_tail] at hi1; omega : i < M.length)]
    congr 1
    omega
  have hgd2 : M.getD (i + 1) default
      = M.get ⟨i - 1 + 1 + 1, by rw [List.length_tail] at hi2; omega⟩ := by
    rw [List.getD_eq_getElem _ _ (by rw [List.length_tail] at hi2; omega : i + 1 < M.length)]
    congr 1
    omega
  rw [hgd1, hgd2]
  exact hch

/-- C4 witness: the amended invariant applied to the counterexample transition
list, which has three spans pre-merge. -/
theorem C4_mergeSmallSegments_witness :
    3 ≤ Ex.transEx.length
    ∧ ((∀ i : ℕ, 1 ≤ i → i + 1 < (Analyze.mergeSmallSegments Ex.transEx 500).length →
        (500 : ℚ) ≤ ((Analyze.mergeSmallSegments Ex.transEx 500).getD (i + 1) default).distance
          - ((Analyze.mergeSmallSegments Ex.transEx 500).getD i default).distance)
      ∧ (Analyze.mergeSmallSegments Ex.transEx 500).Sublist Ex.transEx
      ∧ (Analyze.mergeSmallSegments Ex.transEx 500).head? = Ex.transEx.head?) :=
  ⟨by decide, C4_mergeSmallSegments_interior Ex.transEx 500 (by decide)⟩

theorem sum_sub_one_add_length (l : List ℕ) (h : ∀ x ∈ l, 1 ≤ x) :
    (l.map fun x => x - 1).sum + l.length = l.sum := by
  induction l with
  | nil => simp
  | cons a t ih =>
      have ha := h a (by simp)
      have ht := ih fun x hx => h x (by simp [hx])
      simp only [List.map_cons, List.sum_cons, List.length_cons]
      omega

namespace App

theorem blendGo_length (selections : List (String × RouteChoice)) :
    ∀ (segs : List Analyze.Segment) (coords : List (ℚ × ℚ × ℚ)) (d g l : ℚ),
      coords ≠ [] →
      (∀ s ∈ segs, (chosenStats selections s).coordinates ≠ []) →
      (blendGo selections coords d g l segs).1.length
        = coords.length
          + (segs.map fun s => (chosenStats selections s).coordinates.length - 1).sum := by
  intro segs
  induction segs with
  | nil => intro coords d g l _ _; simp [blendGo]
  | cons s rest ih =>
      intro coords d g l hc hall
      have hsne : (chosenStats selections s).coordinates ≠ [] := hall s (by simp)
      simp only [blendGo]
      rw [if_pos ⟨hc, hsne⟩]
      rw [ih (coords ++ (chosenStats selections s).coordinates.tail) _ _ _
        (by simp [hc]) fun x hx => hall x (by simp [hx])]
      simp only [List.map_cons, List.sum_cons, List.length_append, List.length_tail]
      omega

end App

/-- C2 counterexample: a two-segment list whose first (shared) segment carries
no coordinates.  Every diverging segment trivially has a selection, yet the
blended route has 2 coordinates while the claimed formula
sum - (numSegments - 1) gives 1: no boundary point was deduplicated because the
running coordinate list was still empty when the second segment was
appended. -/
theorem C2_counterexample :
    ((App.buildBlendedRoute [Ex.segEmptyShared, Ex.segShared2] []).map
        fun r => r.coordinates.length) = some 2
    ∧ (([Ex.segEmptyShared, Ex.segShared2].map
        fun s => (App.chosenStats [] s).coordinates.length).sum
        - ([Ex.segEmptyShared, Ex.segShared2].length - 1)) = 1
    ∧ (2 : ℕ) ≠ 1 := by
  refine ⟨?_, by decide, by decide⟩
  with_unfolding_all decide

/-- C2 (amended): buildBlendedRoute returns null iff at least one diverging
segment lacks a selection; and whenever every diverging segment has a
selection, the segment list is non-empty, and every segment's chosen
coordinate list is non-empty, the returned coordinate count equals the sum of
the chosen per-segment coordinate counts minus (number of segments - 1), one
deduplicated point per internal segment boundary. -/
theorem C2_buildBlendedRoute (segments : List Analyze.Segment)
    (selections : List (String × App.RouteChoice)) :
    (App.buildBlendedRoute segments selections = none
      ↔ ∃ s ∈ segments, s.type = Analyze.SegType.diverging
          ∧ App.mapGet selections s.id = none)
    ∧ (segments ≠ [] →
        (∀ s ∈ segments, (App.chosenStats selections s).coordinates ≠ []) →
        (∀ s ∈ segments, s.type = Analyze.SegType.diverging →
          (App.mapGet selections s.id).isSome = true) →
        ((App.buildBlendedRoute segments selections).map fun r => r.coordinates.length)
          = some ((segments.map fun s =>
              (App.chosenStats selections s).coordinates.length).sum
            - (segments.length - 1))) := by
  constructor
  · simp only [App.buildBlendedRoute]
    split_ifs with hall
    · constructor
      · intro hc
        exact absurd hc (by simp)
      · rintro ⟨s, hs, hdiv, hnone⟩
        have hmem : s ∈ segments.filter fun s => decide (s.type = Analyze.SegType.diverging) :=
          List.mem_filter.mpr ⟨hs, by simp [hdiv]⟩
        have := List.all_eq_true.mp hall s hmem
        rw [hnone] at this
        simp at this
    · constructor
      · intro _
        rw [List.all_eq_true] at hall
        push_neg at hall
        obtain ⟨s, hsmem, hns⟩ := hall
        have h2 := List.mem_filter.mp hsmem
        refine ⟨s, h2.1, by simpa using h2.2, ?_⟩
        rw [← Option.not_isSome_iff_eq_none]
        simpa using hns
      · intro _
        rfl
  · intro hne hcoords hsel
    have hall : (segments.filter fun s => decide (s.type = Analyze.SegType.diverging)).all
        (fun s => (App.mapGet selections s.id).isSome) = true := by
      rw [List.all_eq_true]
      intro s hs
      have h2 := List.mem_filter.mp hs
      exact hsel s h2.1 (by simpa using h2.2)
    simp only [App.buildBlendedRoute]
    rw [if_pos hall]
    simp only [Option.map_some']
    cases segments with
    | nil => exact absurd rfl hne
    | cons s0 rest =>
        have hs0 : (App.chosenStats selections s0).coordinates ≠ [] := hcoords s0 (by simp)
        simp only [App.blendGo]
        rw [if_neg (by simp)]
        rw [List.nil_append]
        rw [App.blendGo_length selections rest _ _ _ _ hs0
          fun x hx => hcoords x (by simp [hx])]
        have hsum := sum_sub_one_add_length
          ((rest.map fun s => (App.chosenStats selections s).coordinates.length))
          (by
            intro x hx
            obtain ⟨s, hs, rfl⟩ := List.mem_map.mp hx
            have := hcoords s (by simp [hs])
            exact List.length_pos.mpr this)
        simp only [List.map_cons, List.sum_cons, List.length_cons, List.map_map,
          List.length_map] at hsum ⊢
        congr 1
        rw [Function.comp_def] at hsum
        omega

/-- C2 witness: the amended statement applied to a complete selection over one
shared and two diverging segments, each with two coordinates; the blended
route has 2 + 2 + 2 - 2 = 4 coordinates. -/
theorem C2_buildBlendedRoute_witness :
    (([Ex.segShared1, Ex.segDiv2, Ex.segDiv3] : List Analyze.Segment) ≠ []
     ∧ (∀ s ∈ ([Ex.segShared1, Ex.segDiv2, Ex.segDiv3] : List Analyze.Segment),
          (App.chosenStats Ex.selW s).coordinates ≠ [])
     ∧ (∀ s ∈ ([Ex.segShared1, Ex.segDiv2, Ex.segDiv3] : List Analyze.Segment),
          s.type = Analyze.SegType.diverging → (App.mapGet Ex.selW s.id).isSome = true))
    ∧ ((App.buildBlendedRoute [Ex.segShared1, Ex.segDiv2, Ex.segDiv3] Ex.selW).map
        fun r => r.coordinates.length) = some 4 := by
  refine ⟨⟨by decide, by decide, by decide⟩, ?_⟩
  have h := (C2_buildBlendedRoute [Ex.segShared1, Ex.segDiv2, Ex.segDiv3] Ex.selW).2
    (by decide) (by decide) (by decide)
  rw [h]
  decide

/-- C6 counterexample: on an empty primary track the segmentation pipeline
faults — the source dereferences overlapAnalysis[0] (and logs the last route
point), modelled as none — instead of degrading to an empty segment list. -/
theorem C6_counterexample :
    Analyze.analyzeSegmentsCore Ex.exDist [] [] = none
    ∧ Analyze.analyzeSegmentsCore Ex.exDist [] [] ≠ some [] := by
  refine ⟨rfl, ?_⟩
  intro hcon
  rw [show Analyze.analyzeSegmentsCore Ex.exDist [] [] = none from rfl] at hcon
  exact Option.noConfusion hcon

/-- C6 (amended): for an empty input track the profile builder returns an
empty profile without faulting, but the segmentation pipeline faults
(undefined-element access, modelled as none) rather than returning an empty
segment list — for every distance function and every secondary track. -/
theorem C6_empty_track (dist : DistFn) (tarmacCoords : List Analyze.Coordinate) :
    Gpx.extractElevationProfile dist [] = []
    ∧ Analyze.analyzeSegmentsCore dist [] tarmacCoords = none :=
  ⟨rfl, rfl⟩

/-- C9: generateDaySplits is invariant under permutation of its breakpoints
argument — it sorts the percentages before forming day boundaries, so any
permutation produces the same DaySplits as the ascending-sorted list. -/
theorem C9_generateDaySplits_perm (dist : DistFn) (blendedRoute : App.BlendedRoute)
    (breakpoints breakpoints2 : List ℚ) (hperm : breakpoints.Perm breakpoints2) :
    DaySplits.generateDaySplits dist blendedRoute breakpoints
      = DaySplits.generateDaySplits dist blendedRoute breakpoints2 := by
  have htrans : ∀ a b c : ℚ, (fun a b : ℚ => decide (a ≤ b)) a b →
      (fun a b : ℚ => decide (a ≤ b)) b c → (fun a b : ℚ => decide (a ≤ b)) a c := by
    intro a b c hab hbc
    simp only [decide_eq_true_eq] at hab hbc ⊢
    exact le_trans hab hbc
  have htotal : ∀ a b : ℚ, ((fun a b : ℚ => decide (a ≤ b)) a b
      || (fun a b : ℚ => decide (a ≤ b)) b a) := by
    intro a b
    simp only [Bool.or_eq_true, decide_eq_true_eq]
    exact le_total a b
  have hs1 := List.sorted_mergeSort htrans htotal breakpoints
  have hs2 := List.sorted_mergeSort htrans htotal breakpoints2
  have hp : (breakpoints.mergeSort fun a b : ℚ => decide (a ≤ b)).Perm
      (breakpoints2.mergeSort fun a b : ℚ => decide (a ≤ b)) :=
    ((List.mergeSort_perm breakpoints _).trans hperm).trans
      (List.mergeSort_perm breakpoints2 _).symm
  have hsorted1 : List.Sorted (· ≤ ·) (breakpoints.mergeSort fun a b : ℚ => decide (a ≤ b)) := by
    refine hs1.imp ?_
    intro a b h
    simpa using h
  have hsorted2 : List.Sorted (· ≤ ·)
      (breakpoints2.mergeSort fun a b : ℚ => decide (a ≤ b)) := by
    refine hs2.imp ?_
    intro a b h
    simpa using h
  have heq := List.eq_of_perm_of_sorted hp hsorted1 hsorted2
  simp only [DaySplits.generateDaySplits]
  rw [heq]

/-- C9 witness: the breakpoints [66, 33] are a permutation of [33, 66] and
produce identical DaySplits on the eleven-point blended route. -/
theorem C9_generateDaySplits_witness :
    ([66, 33] : List ℚ).Perm [33, 66]
    ∧ DaySplits.generateDaySplits Ex.exDist Ex.routeW [66, 33]
        = DaySplits.generateDaySplits Ex.exDist Ex.routeW [33, 66] :=
  ⟨by with_unfolding_all decide,
    C9_generateDaySplits_perm Ex.exDist Ex.routeW [66, 33] [33, 66]
      (by with_unfolding_all decide)⟩

namespace DaySplits

theorem splitsGo_length (dist : DistFn) (coords : List (ℚ × ℚ × ℚ))
    (cum : List ℚ) (total : ℚ) :
    ∀ (bl : List ℚ) (i : ℕ),
      (splitsGo dist coords cum total i bl).length = bl.length - 1
  | [], _ => rfl
  | [_], _ => rfl
  | b1 :: b2 :: rest, i => by
      simp only [splitsGo, List.length_cons]
      rw [splitsGo_length dist coords cum total (b2 :: rest) (i + 1)]
      simp

theorem splitsGo_getD (dist : DistFn) (coords : List (ℚ × ℚ × ℚ))
    (cum : List ℚ) (total : ℚ) :
    ∀ (bl : List ℚ) (i k : ℕ), k + 1 < bl.length →
      ((splitsGo dist coords cum total i bl).getD k default).dayNumber = i + k + 1
      ∧ ((splitsGo dist coords cum total i bl).getD k default).startPercentage = bl.getD k 0
      ∧ ((splitsGo dist coords cum total i bl).getD k default).endPercentage
          = bl.getD (k + 1) 0
      ∧ ((splitsGo dist coords cum total i bl).getD k default).startCoordIndex
          = percentageToCoordIndex (bl.getD k 0) cum total
  | [], _, k => by intro h; simp at h
  | [_], _, k => by intro h; simp at h
  | b1 :: b2 :: rest, i, 0 => by
      intro _
      simp [splitsGo]
  | b1 :: b2 :: rest, i, k + 1 => by
      intro h
      have ih := splitsGo_getD dist coords cum total (b2 :: rest) (i + 1) k
        (by simp only [List.length_cons] at h ⊢; omega)
      simp only [splitsGo, List.getD_cons_succ]
      refine ⟨?_, ih.2.1, ih.2.2.1, ih.2.2.2⟩
      rw [ih.1]
      omega

theorem cumGo_facts (dist : DistFn) (hdist : ∀ a b c d, 0 ≤ dist a b c d) :
    ∀ (rest : List (ℚ × ℚ × ℚ)) (prev : ℚ × ℚ × ℚ) (c : ℚ),
      (cumGo dist prev c rest).Pairwise (· ≤ ·) ∧ ∀ x ∈ cumGo dist prev c rest, c ≤ x
  | [], _, _ => ⟨by simp [cumGo], by intro x hx; simp [cumGo] at hx⟩
  | c2 :: rest, prev, c => by
      have ih := cumGo_facts dist hdist rest c2 (c + dist prev.2.1 prev.1 c2.2.1 c2.1)
      have hd : c ≤ c + dist prev.2.1 prev.1 c2.2.1 c2.1 := by
        have := hdist prev.2.1 prev.1 c2.2.1 c2.1
        linarith
      constructor
      · simp only [cumGo, List.pairwise_cons]
        exact ⟨fun x hx => le_trans (le_refl _) (ih.2 x hx), ih.1⟩
      · intro x hx
        simp only [cumGo, List.mem_cons] at hx
        rcases hx with rfl | hx
        · exact hd
        · exact le_trans hd (ih.2 x hx)

theorem calculateCumulativeDistances_facts (dist : DistFn)
    (hdist : ∀ a b c d, 0 ≤ dist a b c d) (coords : List (ℚ × ℚ × ℚ)) :
    (calculateCumulativeDistances dist coords).Pairwise (· ≤ ·)
    ∧ 0 < (calculateCumulativeDistances dist coords).length
    ∧ (calculateCumulativeDistances dist coords).getD 0 0 = 0 := by
  cases coords with
  | nil => exact ⟨by simp [calculateCumulativeDistances], by simp [calculateCumulativeDistances],
      by simp [calculateCumulativeDistances]⟩
  | cons c0 rest =>
      have h := cumGo_facts dist hdist rest c0 0
      refine ⟨?_, by simp [calculateCumulativeDistances], by simp [calculateCumulativeDistances]⟩
      simp only [calculateCumulativeDistances, List.pairwise_cons]
      exact ⟨h.2, h.1⟩

theorem closestIdx_le (ds : List ℚ) (target : ℚ) (hsort : ds.Pairwise (· ≤ ·))
    (hne : 0 < ds.length) : Gpx.closestIdx ds target ≤ ds.length - 1 := by
  have h := Gpx.bsearchGo_spec ds target hsort hne
  simp only [Gpx.closestIdx]
  split
  · omega
  · exact h.1

theorem closestIdx_of_le_head (ds : List ℚ) (target : ℚ) (hsort : ds.Pairwise (· ≤ ·))
    (hne : 0 < ds.length) (hle : target ≤ ds.getD 0 0) : Gpx.closestIdx ds target = 0 := by
  have h := Gpx.bsearchGo_spec ds target hsort hne
  have hb : Gpx.bsearchGo ds target 0 (ds.length - 1) = 0 := by
    by_contra hcon
    have h0 := h.2.1 0 (by omega)
    linarith
  simp only [Gpx.closestIdx, hb]
  rw [if_neg]
  simp

theorem percentageToCoordIndex_mono (cum : List ℚ) (total : ℚ)
    (hsort : cum.Pairwise (· ≤ ·)) (hne : 0 < cum.length) (hhead : cum.getD 0 0 = 0)
    (p1 p2 : ℚ) (h12 : p1 ≤ p2) :
    percentageToCoordIndex p1 cum total ≤ percentageToCoordIndex p2 cum total := by
  simp only [percentageToCoordIndex]
  by_cases h1 : p1 ≤ 0
  · rw [if_pos h1]
    omega
  · rw [if_neg h1]
    by_cases h1b : 100 ≤ p1
    · rw [if_pos h1b, if_neg (by linarith), if_pos (by linarith)]
    · rw [if_neg h1b]
      by_cases h2 : p2 ≤ 0
      · linarith
      · rw [if_neg h2]
        by_cases h2b : 100 ≤ p2
        · rw [if_pos h2b]
          exact closestIdx_le cum _ hsort hne
        · rw [if_neg h2b]
          rcases le_or_lt total 0 with htot | htot
          · have ht1 : p1 / 100 * total ≤ 0 := by
              have hp1 : 0 < p1 / 100 := div_pos (by linarith) (by norm_num)
              exact mul_nonpos_of_nonneg_of_nonpos (le_of_lt hp1) htot
            have ht2 : p2 / 100 * total ≤ 0 := by
              have hp2 : 0 < p2 / 100 := div_pos (by linarith) (by norm_num)
              exact mul_nonpos_of_nonneg_of_nonpos (le_of_lt hp2) htot
            rw [closestIdx_of_le_head cum _ hsort hne (by rw [hhead]; exact ht1),
              closestIdx_of_le_head cum _ hsort hne (by rw [hhead]; exact ht2)]
          · refine Gpx.closestIdx_mono cum hsort hne _ _ ?_
            have : p1 / 100 ≤ p2 / 100 := by linarith
            exact mul_le_mul_of_nonneg_right this (le_of_lt htot)

end DaySplits

/-- C5: for every non-negative distance function (abstracting the haversine),
every blended route, and every sorted breakpoint list with values strictly
between 0 and 100, generateDaySplits returns breakpoints.length + 1 DaySplits
whose startPercentage/endPercentage intervals are exactly the consecutive
pairs of the boundary list 0 :: breakpoints ++ [100] (so they partition
[0,100] contiguously with no gaps: the first starts at 0, the last ends at
100, consecutive splits share their boundary percentage, and the i-th split
runs from the i-th to the (i+1)-th boundary value), with dayNumber equal to
the 1-based position and startCoordIndex non-decreasing across days. -/
theorem C5_generateDaySplits (dist : DistFn) (hdist : ∀ a b c d, 0 ≤ dist a b c d)
    (blendedRoute : App.BlendedRoute) (breakpoints : List ℚ)
    (hsort : breakpoints.Sorted (· ≤ ·))
    (hrange : ∀ b ∈ breakpoints, 0 < b ∧ b < 100) :
    (DaySplits.generateDaySplits dist blendedRoute breakpoints).length
        = breakpoints.length + 1
    ∧ ((DaySplits.generateDaySplits dist blendedRoute breakpoints).getD 0
        default).startPercentage = 0
    ∧ ((DaySplits.generateDaySplits dist blendedRoute breakpoints).getD
        ((DaySplits.generateDaySplits dist blendedRoute breakpoints).length - 1)
        default).endPercentage = 100
    ∧ (∀ i : ℕ, i + 1 < (DaySplits.generateDaySplits dist blendedRoute breakpoints).length →
        ((DaySplits.generateDaySplits dist blendedRoute breakpoints).getD i
          default).endPercentage
        = ((DaySplits.generateDaySplits dist blendedRoute breakpoints).getD (i + 1)
          default).startPercentage)
    ∧ (∀ i : ℕ, i < (DaySplits.generateDaySplits dist blendedRoute breakpoints).length →
        ((DaySplits.generateDaySplits dist blendedRoute breakpoints).getD i
          default).dayNumber = i + 1)
    ∧ (∀ i : ℕ, i + 1 < (DaySplits.generateDaySplits dist blendedRoute breakpoints).length →
        ((DaySplits.generateDaySplits dist blendedRoute breakpoints).getD i
          default).startCoordIndex
        ≤ ((DaySplits.generateDaySplits dist blendedRoute breakpoints).getD (i + 1)
          default).startCoordIndex)
    ∧ (∀ i : ℕ, i < (DaySplits.generateDaySplits dist blendedRoute breakpoints).length →
        ((DaySplits.generateDaySplits dist blendedRoute breakpoints).getD i
          default).startPercentage = (0 :: (breakpoints ++ [100])).getD i 0
        ∧ ((DaySplits.generateDaySplits dist blendedRoute breakpoints).getD i
          default).endPercentage = (0 :: (breakpoints ++ [100])).getD (i + 1) 0) := by
  have hcum := DaySplits.calculateCumulativeDistances_facts dist hdist blendedRoute.coordinates
  set cum := DaySplits.calculateCumulativeDistances dist blendedRoute.coordinates with hcumdef
  set bs := breakpoints.mergeSort (fun a b : ℚ => decide (a ≤ b)) with hbs
  have hbslen : bs.length = breakpoints.length := List.length_mergeSort breakpoints
  have hbsmem : ∀ b ∈ bs, 0 < b ∧ b < 100 := by
    intro b hb
    exact hrange b ((List.mergeSort_perm breakpoints _).mem_iff.mp hb)
  have hbssorted : bs.Pairwise (· ≤ ·) := by
    have := @List.sorted_mergeSort ℚ (fun a b : ℚ => decide (a ≤ b))
      (by intro a b c hab hbc
          simp only [decide_eq_true_eq] at hab hbc ⊢
          exact le_trans hab hbc)
      (by intro a b
          simp only [Bool.or_eq_true, decide_eq_true_eq]
          exact le_total a b) breakpoints
    refine this.imp ?_
    intro a b h
    simpa using h
  have hbseq : bs = breakpoints :=
    List.eq_of_perm_of_sorted (List.mergeSort_perm breakpoints _) hbssorted hsort
  have hbsorted : (0 :: (bs ++ [100] : List ℚ)).Pairwise (· ≤ ·) := by
    rw [List.pairwise_cons]
    constructor
    · intro x hx
      rcases List.mem_append.mp hx with h | h
      · exact le_of_lt (hbsmem x h).1
      · rw [List.mem_singleton] at h
        subst h
        norm_num
    · rw [List.pairwise_append]
      refine ⟨hbssorted, by simp, ?_⟩
      intro x hx y hy
      rw [List.mem_singleton] at hy
      subst hy
      exact le_of_lt (hbsmem x hx).2
  have hgen : DaySplits.generateDaySplits dist blendedRoute breakpoints
      = DaySplits.splitsGo dist blendedRoute.coordinates cum blendedRoute.distanceKm 0
        (0 :: (bs ++ [100])) := by
    simp only [DaySplits.generateDaySplits]
  have hlen : (DaySplits.generateDaySplits dist blendedRoute breakpoints).length
      = breakpoints.length + 1 := by
    rw [hgen, DaySplits.splitsGo_length]
    simp [hbslen]
  have hblen : (0 :: (bs ++ [100] : List ℚ)).length = breakpoints.length + 2 := by
    simp [hbslen]
  refine ⟨hlen, ?_, ?_, ?_, ?_, ?_, ?_⟩
  · rw [hgen]
    have h := DaySplits.splitsGo_getD dist blendedRoute.coordinates cum
      blendedRoute.distanceKm (0 :: (bs ++ [100])) 0 0 (by rw [hblen]; omega)
    rw [h.2.1]
    simp
  · rw [hlen, hgen]
    have h := DaySplits.splitsGo_getD dist blendedRoute.coordinates cum
      blendedRoute.distanceKm (0 :: (bs ++ [100])) 0 (breakpoints.length + 1 - 1)
      (by rw [hblen]; omega)
    rw [h.2.2.1]
    have : (0 :: (bs ++ [100] : List ℚ)).getD (breakpoints.length + 1 - 1 + 1) 0 = 100 := by
      rw [List.getD_cons_succ]
      rw [List.getD_eq_getElem _ _ (by simp [hbslen] : breakpoints.length + 1 - 1
          < (bs ++ [100] : List ℚ).length)]
      have hidx : breakpoints.length + 1 - 1 = bs.length := by omega
      simp only [hidx]
      exact List.getElem_concat_length bs 100 _ rfl (by simp)
    rw [this]
  · intro i hi
    rw [hlen] at hi
    rw [hgen]
    have h1 := DaySplits.splitsGo_getD dist blendedRoute.coordinates cum
      blendedRoute.distanceKm (0 :: (bs ++ [100])) 0 i (by rw [hblen]; omega)
    have h2 := DaySplits.splitsGo_getD dist blendedRoute.coordinates cum
      blendedRoute.distanceKm (0 :: (bs ++ [100])) 0 (i + 1) (by rw [hblen]; omega)
    rw [h1.2.2.1, h2.2.1]
  · intro i hi
    rw [hlen] at hi
    rw [hgen]
    have h1 := DaySplits.splitsGo_getD dist blendedRoute.coordinates cum
      blendedRoute.distanceKm (0 :: (bs ++ [100])) 0 i (by rw [hblen]; omega)
    rw [h1.1]
    omega
  · intro i hi
    rw [hlen] at hi
    rw [hgen]
    have h1 := DaySplits.splitsGo_getD dist blendedRoute.coordinates cum
      blendedRoute.distanceKm (0 :: (bs ++ [100])) 0 i (by rw [hblen]; omega)
    have h2 := DaySplits.splitsGo_getD dist blendedRoute.coordinates cum
      blendedRoute.distanceKm (0 :: (bs ++ [100])) 0 (i + 1) (by rw [hblen]; omega)
    rw [h1.2.2.2, h2.2.2.2]
    refine DaySplits.percentageToCoordIndex_mono cum blendedRoute.distanceKm hcum.1 hcum.2.1
      hcum.2.2 _ _ ?_
    exact Gpx.sorted_getD_mono _ hbsorted (by omega) (by rw [hblen]; omega)
  · intro i hi
    rw [hlen] at hi
    rw [hgen]
    have h1 := DaySplits.splitsGo_getD dist blendedRoute.coordinates cum
      blendedRoute.distanceKm (0 :: (bs ++ [100])) 0 i (by rw [hblen]; omega)
    constructor
    · rw [h1.2.1, hbseq]
    · rw [h1.2.2.1, hbseq]

/-- C5 witness: breakpoints [33, 66] on the eleven-point 10 km blended route
give three DaySplits whose percentage intervals are exactly [0,33], [33,66]
and [66,100]. -/
theorem C5_generateDaySplits_witness :
    ((∀ a b c d : ℚ, 0 ≤ Ex.exDist a b c d)
     ∧ ([33, 66] : List ℚ).Sorted (· ≤ ·)
     ∧ (∀ b ∈ ([33, 66] : List ℚ), 0 < b ∧ b < 100))
    ∧ (DaySplits.generateDaySplits Ex.exDist Ex.routeW [33, 66]).length = 2 + 1
    ∧ ((DaySplits.generateDaySplits Ex.exDist Ex.routeW [33, 66]).getD 0
        default).startPercentage = 0
    ∧ ((DaySplits.generateDaySplits Ex.exDist Ex.routeW [33, 66]).getD 0
        default).endPercentage = 33
    ∧ ((DaySplits.generateDaySplits Ex.exDist Ex.routeW [33, 66]).getD 1
        default).startPercentage = 33
    ∧ ((DaySplits.generateDaySplits Ex.exDist Ex.routeW [33, 66]).getD 1
        default).endPercentage = 66
    ∧ ((DaySplits.generateDaySplits Ex.exDist Ex.routeW [33, 66]).getD 2
        default).startPercentage = 66
    ∧ ((DaySplits.generateDaySplits Ex.exDist Ex.routeW [33, 66]).getD 2
        default).endPercentage = 100 := by
  have hd : ∀ a b c d : ℚ, 0 ≤ Ex.exDist a b c d := by
    intro a b c d
    exact absQ_nonneg _
  have h := C5_generateDaySplits Ex.exDist hd Ex.routeW [33, 66]
    (by simp [List.Sorted]; norm_num) (by intro b hb; fin_cases hb <;> norm_num)
  have hb := h.2.2.2.2.2.2
  have hlen3 : (DaySplits.generateDaySplits Ex.exDist Ex.routeW [33, 66]).length = 3 := h.1
  refine ⟨⟨hd, by simp [List.Sorted]; norm_num, by intro b hb; fin_cases hb <;> norm_num⟩,
    h.1, h.2.1, ?_, ?_, ?_, ?_, ?_⟩
  · rw [(hb 0 (by rw [hlen3]; omega)).2]
    rfl
  · rw [(hb 1 (by rw [hlen3]; omega)).1]
    rfl
  · rw [(hb 1 (by rw [hlen3]; omega)).2]
    rfl
  · rw [(hb 2 (by rw [hlen3]; omega)).1]
    rfl
  · rw [(hb 2 (by rw [hlen3]; omega)).2]
    rfl

namespace App

theorem digitChar_toNat (k : ℕ) (hk : k < 10) : (digitChar k).toNat = 48 + k := by
  interval_cases k <;> decide

theorem natCharsFuel_digits :
    ∀ (fuel n : ℕ), n ≤ fuel →
      (∀ c ∈ natCharsFuel fuel n, 48 ≤ c.toNat ∧ c.toNat ≤ 57) ∧ natCharsFuel fuel n ≠ [] := by
  intro fuel
  induction fuel with
  | zero =>
      intro n hn
      have : n = 0 := by omega
      subst this
      refine ⟨?_, by simp [natCharsFuel]⟩
      intro c hc
      simp only [natCharsFuel, List.mem_singleton] at hc
      subst hc
      rw [digitChar_toNat 0 (by omega)]
      omega
  | succ fuel ih =>
      intro n hn
      by_cases h : n < 10
      · simp only [natCharsFuel, if_pos h]
        refine ⟨?_, by simp⟩
        intro c hc
        rw [List.mem_singleton] at hc
        subst hc
        rw [digitChar_toNat n h]
        omega
      · simp only [natCharsFuel, if_neg h]
        have hdiv : n / 10 ≤ fuel := by
          have := Nat.div_lt_self (by omega : 0 < n) (by omega : 1 < 10)
          omega
        have ihd := ih (n / 10) hdiv
        refine ⟨?_, by simp⟩
        intro c hc
        rcases List.mem_append.mp hc with h2 | h2
        · exact ihd.1 c h2
        · rw [List.mem_singleton] at h2
          subst h2
          rw [digitChar_toNat (n % 10) (Nat.mod_lt n (by omega))]
          have := Nat.mod_lt n (show 0 < 10 by omega)
          omega

theorem parseDigitsGo_append (acc : ℕ) (xs ys : List Char) :
    parseDigitsGo acc (xs ++ ys) = parseDigitsGo (parseDigitsGo acc xs) ys := by
  induction xs generalizing acc with
  | nil => rfl
  | cons c rest ih => exact ih (acc * 10 + (c.toNat - 48))

theorem parseDigitsGo_natCharsFuel :
    ∀ (fuel n acc : ℕ), n ≤ fuel →
      parseDigitsGo acc (natCharsFuel fuel n)
        = acc * 10 ^ (natCharsFuel fuel n).length + n := by
  intro fuel
  induction fuel with
  | zero =>
      intro n acc hn
      have hz : n = 0 := by omega
      subst hz
      have h1 : natCharsFuel 0 0 = [digitChar 0] := rfl
      have h2 : parseDigitsGo acc [digitChar 0]
          = acc * 10 + ((digitChar 0).toNat - 48) := rfl
      rw [h1, h2, digitChar_toNat 0 (by omega), List.length_singleton, pow_one]
  | succ fuel ih =>
      intro n acc hn
      by_cases h : n < 10
      · simp only [natCharsFuel, if_pos h]
        have h2 : parseDigitsGo acc [digitChar n]
            = acc * 10 + ((digitChar n).toNat - 48) := rfl
        rw [h2, digitChar_toNat n h, List.length_singleton, pow_one]
        omega
      · simp only [natCharsFuel, if_neg h]
        have hdiv : n / 10 ≤ fuel := by
          have := Nat.div_lt_self (by omega : 0 < n) (by omega : 1 < 10)
          omega
        rw [parseDigitsGo_append, ih (n / 10) acc hdiv]
        have h2 : parseDigitsGo (acc * 10 ^ (natCharsFuel fuel (n / 10)).length + n / 10)
              [digitChar (n % 10)]
            = (acc * 10 ^ (natCharsFuel fuel (n / 10)).length + n / 10) * 10
              + ((digitChar (n % 10)).toNat - 48) := rfl
        rw [h2, digitChar_toNat (n % 10) (Nat.mod_lt n (by omega)), List.length_append,
          List.length_singleton, pow_succ]
        have h48 : 48 + n % 10 - 48 = n % 10 := by omega
        rw [h48, Nat.add_mul, Nat.mul_assoc, Nat.add_assoc]
        congr 1
        omega

theorem natChars_digits (n : ℕ) :
    (∀ c ∈ natChars n, 48 ≤ c.toNat ∧ c.toNat ≤ 57) ∧ natChars n ≠ [] :=
  natCharsFuel_digits n n (le_refl n)

theorem parseDigits_natChars (n : ℕ) : parseDigits (natChars n) = n := by
  rw [parseDigits, natChars, parseDigitsGo_natCharsFuel n n 0 (le_refl n)]
  simp

theorem natChars_no_hyphen (n : ℕ) : ∀ c ∈ natChars n, c ≠ '-' := by
  intro c hc hcon
  have h := (natChars_digits n).1 c hc
  rw [hcon] at h
  have h45 : ('-').toNat = 45 := rfl
  omega

theorem natChars_all_digit (n : ℕ) : (natChars n).all isDigitCh = true := by
  rw [List.all_eq_true]
  intro c hc
  have h := (natChars_digits n).1 c hc
  simp only [isDigitCh, decide_eq_true_eq]
  omega

end App

namespace App

theorem splitOnChar_ne_nil (sep : Char) (l : List Char) : splitOnChar sep l ≠ [] := by
  cases l with
  | nil => simp [splitOnChar]
  | cons c rest =>
      simp only [splitOnChar]
      split <;> simp

theorem splitOnChar_no_sep (sep : Char) :
    ∀ (p : List Char), sep ∉ p → splitOnChar sep p = [p] := by
  intro p
  induction p with
  | nil => intro _; rfl
  | cons c rest ih =>
      intro hns
      have hc : c ≠ sep := fun hcon => hns (by simp [hcon])
      have hrest : sep ∉ rest := fun hcon => hns (by simp [hcon])
      simp only [splitOnChar, ih hrest]
      rw [if_neg hc]
      simp

theorem splitOnChar_append_sep (sep : Char) :
    ∀ (p r : List Char), sep ∉ p →
      splitOnChar sep (p ++ sep :: r) = p :: splitOnChar sep r := by
  intro p
  induction p with
  | nil =>
      intro r _
      simp only [List.nil_append, splitOnChar]
      simp
  | cons c rest ih =>
      intro r hns
      have hc : c ≠ sep := fun hcon => hns (by simp [hcon])
      have hrest : sep ∉ rest := fun hcon => hns (by simp [hcon])
      simp only [List.cons_append, splitOnChar, List.append_eq]
      rw [ih r hrest, if_neg hc]
      simp

theorem splitOnChar_joinSep (sep : Char) :
    ∀ (parts : List (List Char)), parts ≠ [] → (∀ p ∈ parts, sep ∉ p) →
      splitOnChar sep (joinSep sep parts) = parts := by
  intro parts
  induction parts with
  | nil => intro h _; exact absurd rfl h
  | cons p ps ih =>
      intro _ hns
      cases ps with
      | nil =>
          simp only [joinSep]
          exact splitOnChar_no_sep sep p (hns p (by simp))
      | cons p2 ps2 =>
          have hjoin : joinSep sep (p :: p2 :: ps2) = p ++ sep :: joinSep sep (p2 :: ps2) := rfl
          rw [hjoin, splitOnChar_append_sep sep p _ (hns p (by simp)),
            ih (by simp) fun q hq => hns q (by simp [hq])]

end App

namespace App

theorem decodeToken_token (choice : RouteChoice) (order : ℕ) :
    decodeToken ((if choice = RouteChoice.gravel then 'g' else 't') :: natChars order)
      = some (choice, order) := by
  have hd : ∀ (c : Char) (rest : List Char), decodeToken (c :: rest)
      = if (c = 'g' ∨ c = 't') ∧ rest ≠ [] ∧ rest.all isDigitCh then
          some ((if c = 'g' then RouteChoice.gravel else RouteChoice.tarmac), parseDigits rest)
        else none := fun c rest => rfl
  cases choice with
  | gravel =>
      have hch : (if (RouteChoice.gravel = RouteChoice.gravel) then 'g' else 't') = 'g' := rfl
      rw [hch, hd]
      rw [if_pos ⟨Or.inl rfl, (natChars_digits order).2, natChars_all_digit order⟩,
        if_pos rfl, parseDigits_natChars]
  | tarmac =>
      have hch : (if (RouteChoice.tarmac = RouteChoice.gravel) then 'g' else 't') = 't' := rfl
      rw [hch, hd]
      rw [if_pos ⟨Or.inr rfl, (natChars_digits order).2, natChars_all_digit order⟩,
        if_neg (by decide), parseDigits_natChars]

theorem find?_order_unique (segments : List Analyze.Segment)
    (hnodup : (segments.map fun s => s.order).Nodup) (s : Analyze.Segment)
    (hs : s ∈ segments) :
    segments.reverse.find? (fun x => decide (x.order = s.order)) = some s := by
  have hinj := List.inj_on_of_nodup_map hnodup
  cases hfind : segments.reverse.find? (fun x => decide (x.order = s.order)) with
  | none =>
      have := List.find?_eq_none.mp hfind s (List.mem_reverse.mpr hs)
      simp at this
  | some y =>
      have hy1 := List.find?_some hfind
      have hy2 : y ∈ segments := List.mem_reverse.mp (List.mem_of_find?_eq_some hfind)
      have heq : y = s := hinj hy2 hs (by simpa using hy1)
      rw [heq]

theorem mapGet_mem (m : List (String × RouteChoice)) (k : String) (v : RouteChoice)
    (h : mapGet m k = some v) : (k, v) ∈ m := by
  induction m with
  | nil => simp [mapGet] at h
  | cons p rest ih =>
      obtain ⟨k2, w⟩ := p
      simp only [mapGet] at h
      by_cases hk : k2 = k
      · rw [if_pos hk] at h
        subst hk
        simp only [Option.some.injEq] at h
        subst h
        simp
      · rw [if_neg hk] at h
        exact List.mem_cons_of_mem _ (ih h)

theorem mapGet_eq_none (m : List (String × RouteChoice)) (k : String)
    (h : ∀ p ∈ m, p.1 ≠ k) : mapGet m k = none := by
  induction m with
  | nil => rfl
  | cons p rest ih =>
      obtain ⟨k2, w⟩ := p
      simp only [mapGet]
      rw [if_neg (h (k2, w) (by simp))]
      exact ih fun q hq => h q (by simp [hq])

theorem mapGet_eq_some_of (m : List (String × RouteChoice)) (k : String) (v : RouteChoice)
    (hex : ∃ p ∈ m, p.1 = k) (hall : ∀ p ∈ m, p.1 = k → p.2 = v) :
    mapGet m k = some v := by
  induction m with
  | nil => obtain ⟨p, hp, _⟩ := hex; simp at hp
  | cons q rest ih =>
      obtain ⟨k2, w⟩ := q
      simp only [mapGet]
      by_cases hk : k2 = k
      · rw [if_pos hk]
        have := hall (k2, w) (by simp) hk
        simp only at this
        rw [this]
      · rw [if_neg hk]
        refine ih ?_ fun p hp hpk => hall p (by simp [hp]) hpk
        obtain ⟨p, hp, hpk⟩ := hex
        rcases List.mem_cons.mp hp with rfl | hp2
        · exact absurd hpk hk
        · exact ⟨p, hp2, hpk⟩

theorem mapGet_isSome_of_mem (m : List (String × RouteChoice)) (k : String)
    (v : RouteChoice) (h : (k, v) ∈ m) : (mapGet m k).isSome = true := by
  induction m with
  | nil => simp at h
  | cons p rest ih =>
      obtain ⟨k2, w⟩ := p
      simp only [mapGet]
      by_cases hk : k2 = k
      · rw [if_pos hk]
        rfl
      · rw [if_neg hk]
        rcases List.mem_cons.mp h with heq | h2
        · exact absurd (congrArg Prod.fst heq).symm hk
        · exact ih h2

theorem joinSep_ne_nil (sep : Char) (parts : List (List Char)) (hne : parts ≠ [])
    (hhead : ∀ p ∈ parts, p ≠ []) : joinSep sep parts ≠ [] := by
  cases parts with
  | nil => exact absurd rfl hne
  | cons p ps =>
      cases ps with
      | nil => exact hhead p (by simp)
      | cons p2 ps2 =>
          have hjoin : joinSep sep (p :: p2 :: ps2) = p ++ sep :: joinSep sep (p2 :: ps2) := rfl
          rw [hjoin]
          simp

theorem decodeGo_tokens (segments : List Analyze.Segment)
    (hnodup : (segments.map fun s => s.order).Nodup) :
    ∀ (pairs : List (Analyze.Segment × RouteChoice)) (acc : List (String × RouteChoice)),
      (∀ p ∈ pairs, p.1 ∈ segments ∧ p.1.type = Analyze.SegType.diverging) →
      decodeGo segments acc (pairs.map fun p =>
          (if p.2 = RouteChoice.gravel then 'g' else 't') :: natChars p.1.order)
        = (pairs.map fun p => (p.1.id, p.2)).reverse ++ acc := by
  intro pairs
  induction pairs with
  | nil => intro acc _; simp [decodeGo]
  | cons pr rest ih =>
      intro acc hall
      obtain ⟨hmem, hdiv⟩ := hall pr (by simp)
      simp only [List.map_cons, decodeGo]
      rw [decodeToken_token pr.2 pr.1.order]
      simp only
      rw [find?_order_unique segments hnodup pr.1 hmem]
      simp only
      rw [if_pos hdiv]
      rw [ih ((pr.1.id, pr.2) :: acc) fun q hq => hall q (by simp [hq])]
      simp only [List.map_cons, List.reverse_cons, List.append_assoc, List.singleton_append]

end App

/-- C3: for every selection map m (unique keys) whose keys are ids of
diverging segments of the given segment list, with all segments carrying
unique 1-based order values, decoding the encoded token string recovers
exactly m: decodeSelectionsFromUrl(encodeSelectionsToUrl(m, segments),
segments) agrees with m on every key. -/
theorem C3_selection_roundtrip (segments : List Analyze.Segment)
    (m : List (String × App.RouteChoice))
    (hkeys : ∀ p ∈ m, ∃ s ∈ segments, s.type = Analyze.SegType.diverging ∧ s.id = p.1)
    (hmnodup : (m.map Prod.fst).Nodup)
    (hordnodup : (segments.map fun s => s.order).Nodup)
    (hordpos : ∀ s ∈ segments, 1 ≤ s.order) :
    ∀ k : String, App.mapGet (App.decodeSelectionsFromUrl
        (App.encodeSelectionsToUrl m segments) segments) k = App.mapGet m k := by
  intro k
  set diverging := segments.filter fun s => decide (s.type = Analyze.SegType.diverging)
    with hdiv
  set pairs := diverging.filterMap fun seg => (App.mapGet m seg.id).map fun c => (seg, c)
    with hpairsdef
  have hparts : App.encodeSelectionsToUrl m segments
      = App.joinSep '-' (pairs.map fun p =>
          (if p.2 = App.RouteChoice.gravel then 'g' else 't') :: App.natChars p.1.order) := by
    simp only [App.encodeSelectionsToUrl, hpairsdef, ← hdiv]
    congr 1
    rw [List.map_filterMap]
    congr 1
    funext seg
    cases App.mapGet m seg.id <;> rfl
  have hpairs_mem : ∀ p : Analyze.Segment × App.RouteChoice, p ∈ pairs →
      (p.1 ∈ segments ∧ p.1.type = Analyze.SegType.diverging
        ∧ App.mapGet m p.1.id = some p.2) := by
    intro p hp
    rw [hpairsdef, List.mem_filterMap] at hp
    obtain ⟨seg, hseg, hopt⟩ := hp
    rw [Option.map_eq_some'] at hopt
    obtain ⟨c, hc1, hc2⟩ := hopt
    obtain ⟨p1, p2⟩ := p
    obtain ⟨rfl, rfl⟩ : seg = p1 ∧ c = p2 := by
      constructor <;> [exact congrArg Prod.fst hc2; exact congrArg Prod.snd hc2]
    have h2 := List.mem_filter.mp hseg
    exact ⟨h2.1, by simpa using h2.2, hc1⟩
  by_cases hp : pairs = []
  · rw [hparts, hp]
    have hj : App.joinSep '-' (([] : List (Analyze.Segment × App.RouteChoice)).map fun p =>
        (if p.2 = App.RouteChoice.gravel then 'g' else 't') :: App.natChars p.1.order)
        = [] := rfl
    rw [hj, App.decodeSelectionsFromUrl, if_pos rfl]
    cases hmk : App.mapGet m k with
    | none => rfl
    | some v =>
        exfalso
        have hmem := App.mapGet_mem m k v hmk
        obtain ⟨s, hsmem, hstype, hsid⟩ := hkeys (k, v) hmem
        have hsdiv : s ∈ diverging := by
          rw [hdiv]
          exact List.mem_filter.mpr ⟨hsmem, by simp [hstype]⟩
        have hnil := List.filterMap_eq_nil.mp hp s hsdiv
        rw [hsid] at hnil
        simp only at hnil
        rw [hmk] at hnil
        simp at hnil
  · have htok_ne : ∀ q ∈ (pairs.map fun p =>
        (if p.2 = App.RouteChoice.gravel then 'g' else 't') :: App.natChars p.1.order),
        q ≠ [] := by
      intro q hq
      obtain ⟨p2, _, rfl⟩ := List.mem_map.mp hq
      simp
    have htok_nohyph : ∀ q ∈ (pairs.map fun p =>
        (if p.2 = App.RouteChoice.gravel then 'g' else 't') :: App.natChars p.1.order),
        ('-') ∉ q := by
      intro q hq hcon
      obtain ⟨p2, _, rfl⟩ := List.mem_map.mp hq
      rcases List.mem_cons.mp hcon with heq | hmem2
      · rcases hc : p2.2 with _ | _ <;> rw [hc] at heq <;> simp at heq
      · exact App.natChars_no_hyphen p2.1.order _ hmem2 rfl
    rw [hparts, App.decodeSelectionsFromUrl,
      if_neg (App.joinSep_ne_nil '-' _ (by simp [hp]) htok_ne),
      App.splitOnChar_joinSep '-' _ (by simp [hp]) htok_nohyph,
      App.decodeGo_tokens segments hordnodup pairs []
        (fun q hq => ⟨(hpairs_mem q hq).1, (hpairs_mem q hq).2.1⟩),
      List.append_nil]
    cases hmk : App.mapGet m k with
    | some v =>
        refine App.mapGet_eq_some_of _ k v ?_ ?_
        · have hmem := App.mapGet_mem m k v hmk
          obtain ⟨s, hsmem, hstype, hsid⟩ := hkeys (k, v) hmem
          refine ⟨(s.id, v), ?_, hsid⟩
          rw [List.mem_reverse, List.mem_map]
          refine ⟨(s, v), ?_, rfl⟩
          rw [hpairsdef, List.mem_filterMap]
          refine ⟨s, ?_, ?_⟩
          · rw [hdiv]
            exact List.mem_filter.mpr ⟨hsmem, by simp [hstype]⟩
          · rw [hsid]
            simp only
            rw [hmk]
            rfl
        · intro p hpmem hpk
          rw [List.mem_reverse, List.mem_map] at hpmem
          obtain ⟨q, hq, rfl⟩ := hpmem
          have hqm := hpairs_mem q hq
          have : App.mapGet m k = some q.2 := by
            rw [← hpk]
            exact hqm.2.2
          rw [hmk] at this
          simp only [Option.some.injEq] at this
          rw [this]
    | none =>
        refine App.mapGet_eq_none _ k ?_
        intro p hpmem hpk
        rw [List.mem_reverse, List.mem_map] at hpmem
        obtain ⟨q, hq, rfl⟩ := hpmem
        have hqm := hpairs_mem q hq
        simp only at hpk
        rw [hpk, hmk] at hqm
        exact Option.noConfusion hqm.2.2

/-- C3 witness: the round-trip applied to one shared and two diverging
segments with orders 1..3 and the selection map {seg-2 : gravel,
seg-3 : tarmac} (encoded as g2-t3). -/
theorem C3_selection_roundtrip_witness :
    ((∀ p ∈ Ex.selW, ∃ s ∈ ([Ex.segShared1, Ex.segDiv2, Ex.segDiv3] : List Analyze.Segment),
        s.type = Analyze.SegType.diverging ∧ s.id = p.1)
     ∧ (Ex.selW.map Prod.fst).Nodup
     ∧ (([Ex.segShared1, Ex.segDiv2, Ex.segDiv3] : List Analyze.Segment).map
          fun s => s.order).Nodup
     ∧ (∀ s ∈ ([Ex.segShared1, Ex.segDiv2, Ex.segDiv3] : List Analyze.Segment), 1 ≤ s.order))
    ∧ (∀ k : String, App.mapGet (App.decodeSelectionsFromUrl
        (App.encodeSelectionsToUrl Ex.selW [Ex.segShared1, Ex.segDiv2, Ex.segDiv3])
        [Ex.segShared1, Ex.segDiv2, Ex.segDiv3]) k = App.mapGet Ex.selW k) :=
  ⟨⟨by decide, by decide, by decide, by decide⟩,
    C3_selection_roundtrip [Ex.segShared1, Ex.segDiv2, Ex.segDiv3] Ex.selW
      (by decide) (by decide) (by decide) (by decide)⟩

namespace Analyze

theorem addDistancesGo_facts (dist : DistFn) (hdist : ∀ a b c d, 0 ≤ dist a b c d) :
    ∀ (l : List Coordinate) (prev : Coordinate) (cum : ℚ),
      (addDistancesGo dist prev cum l).Pairwise
        (fun a b => a.distanceFromStart ≤ b.distanceFromStart)
      ∧ ∀ p ∈ addDistancesGo dist prev cum l, cum ≤ p.distanceFromStart
  | [], _, _ => ⟨by simp [addDistancesGo], by intro p hp; simp [addDistancesGo] at hp⟩
  | c :: rest, prev, cum => by
      have ih := addDistancesGo_facts dist hdist rest c
        (cum + dist prev.lat prev.lng c.lat c.lng)
      have hd : cum ≤ cum + dist prev.lat prev.lng c.lat c.lng := by
        have := hdist prev.lat prev.lng c.lat c.lng
        linarith
      constructor
      · simp only [addDistancesGo, List.pairwise_cons]
        exact ⟨fun p hp => ih.2 p hp, ih.1⟩
      · intro p hp
        simp only [addDistancesGo, List.mem_cons] at hp
        rcases hp with rfl | hp
        · exact hd
        · exact le_trans hd (ih.2 p hp)

theorem addDistances_facts (dist : DistFn) (hdist : ∀ a b c d, 0 ≤ dist a b c d)
    (coords : List Coordinate) (hne : coords ≠ []) :
    (addDistances dist coords).Pairwise
      (fun a b => a.distanceFromStart ≤ b.distanceFromStart)
    ∧ addDistances dist coords ≠ []
    ∧ ((addDistances dist coords).head?.map fun p => p.distanceFromStart) = some 0
    ∧ ∀ p ∈ addDistances dist coords, 0 ≤ p.distanceFromStart := by
  cases coords with
  | nil => exact absurd rfl hne
  | cons c rest =>
      have h := addDistancesGo_facts dist hdist rest c 0
      refine ⟨?_, by simp [addDistances], by simp [addDistances], ?_⟩
      · simp only [addDistances, List.pairwise_cons]
        exact ⟨fun p hp => h.2 p hp, h.1⟩
      · intro p hp
        simp only [addDistances, List.mem_cons] at hp
        rcases hp with rfl | hp
        · exact le_refl 0
        · exact h.2 p hp

theorem routePoint_mem_le_getLast :
    ∀ (l : List RoutePoint),
      l.Pairwise (fun a b => a.distanceFromStart ≤ b.distanceFromStart) →
      ∀ x ∈ l, ∀ y, l.getLast? = some y → x.distanceFromStart ≤ y.distanceFromStart := by
  intro l
  induction l with
  | nil => intro _ x hx; simp at hx
  | cons a t ih =>
      intro hp x hx y hy
      cases t with
      | nil =>
          rw [List.getLast?_singleton] at hy
          rw [List.mem_singleton] at hx
          subst hx
          simp only [Option.some.injEq] at hy
          subst hy
          exact le_refl _
      | cons b t2 =>
          rw [List.getLast?_cons_cons] at hy
          have hymem : y ∈ b :: t2 := List.mem_of_mem_getLast? (Option.mem_def.mpr hy)
          rcases List.mem_cons.mp hx with rfl | hx2
          · exact (List.pairwise_cons.mp hp).1 y hymem
          · exact ih (List.pairwise_cons.mp hp).2 x hx2 y hy

theorem sampleGo_sublist (intervalMeters : ℚ) :
    ∀ (l : List RoutePoint) (lastd : ℚ),
      (sampleGo intervalMeters lastd l).Sublist l
  | [], _ => List.Sublist.refl []
  | p :: rest, lastd => by
      simp only [sampleGo]
      split
      · exact List.Sublist.cons₂ p (sampleGo_sublist intervalMeters rest p.distanceFromStart)
      · exact List.Sublist.cons p (sampleGo_sublist intervalMeters rest lastd)

theorem sampleRoute_facts (route : List RoutePoint) (intervalMeters : ℚ)
    (hne : route ≠ [])
    (hsorted : route.Pairwise (fun a b => a.distanceFromStart ≤ b.distanceFromStart)) :
    sampleRoute route intervalMeters ≠ []
    ∧ (sampleRoute route intervalMeters).head? = route.head?
    ∧ (sampleRoute route intervalMeters).getLast? = route.getLast?
    ∧ (∀ p ∈ sampleRoute route intervalMeters, p ∈ route)
    ∧ (sampleRoute route intervalMeters).Pairwise
        (fun a b => a.distanceFromStart ≤ b.distanceFromStart) := by
  cases route with
  | nil => exact absurd rfl hne
  | cons p0 rest =>
      simp only [sampleRoute]
      have hsub : (p0 :: sampleGo intervalMeters 0 rest).Sublist (p0 :: rest) :=
        List.Sublist.cons₂ p0 (sampleGo_sublist intervalMeters rest 0)
      have hsampsorted : (p0 :: sampleGo intervalMeters 0 rest).Pairwise
          (fun a b => a.distanceFromStart ≤ b.distanceFromStart) := hsorted.sublist hsub
      have hlastmem : rest.getLastD p0 ∈ p0 :: rest := by
        cases rest with
        | nil => simp [List.getLastD]
        | cons b t =>
            exact List.mem_cons_of_mem p0 (getLastD_mem_of_ne_nil p0 (b :: t) (by simp))
      have hlastlast : (p0 :: rest).getLast? = some (rest.getLastD p0) := by
        cases rest with
        | nil => simp [List.getLastD]
        | cons b t =>
            rw [List.getLast?_cons_cons]
            rw [List.getLastD_eq_getLast?, List.getLast?_eq_getLast (b :: t) (by simp)]
            simp
      split
      · rename_i hcond
        refine ⟨by simp, by simp, ?_, fun p hp => hsub.mem hp, hsampsorted⟩
        rw [hlastlast, ← hcond]
        rw [List.getLastD_eq_getLast?, List.getLast?_eq_getLast _ (by simp)]
        simp
      · rename_i hcond
        refine ⟨by simp, ?_, ?_, ?_, ?_⟩
        · rw [List.head?_append]
          simp
        · rw [List.getLast?_concat, hlastlast]
        · intro p hp
          rcases List.mem_append.mp hp with h | h
          · exact hsub.mem h
          · rw [List.mem_singleton] at h
            subst h
            exact hlastmem
        · rw [List.pairwise_append]
          refine ⟨hsampsorted, by simp, ?_⟩
          intro x hx y hy
          rw [List.mem_singleton] at hy
          subst hy
          exact routePoint_mem_le_getLast (p0 :: rest) hsorted x (hsub.mem hx) _ hlastlast

theorem analyzeOverlap_map_fst (dist : DistFn) (primary secondary : List RoutePoint)
    (threshold : ℚ) :
    (analyzeOverlap dist primary secondary threshold).map Prod.fst = primary := by
  simp only [analyzeOverlap, List.map_map]
  exact List.map_id _

end Analyze

namespace Analyze

theorem transGo_facts :
    ∀ (l : List (RoutePoint × Bool)) (cur : Bool),
      l.Pairwise (fun a b => a.1.distanceFromStart ≤ b.1.distanceFromStart) →
      (transGo cur l).1.Pairwise (fun a b => a.distance ≤ b.distance)
      ∧ ∀ tr ∈ (transGo cur l).1, ∃ pb ∈ l, tr.distance = pb.1.distanceFromStart := by
  intro l
  induction l with
  | nil =>
      intro cur _
      exact ⟨by simp [transGo], by intro tr htr; simp [transGo] at htr⟩
  | cons ps rest ih =>
      intro cur hp
      have hrest := (List.pairwise_cons.mp hp).2
      have hhead := (List.pairwise_cons.mp hp).1
      simp only [transGo]
      split
      · have ihs := ih ps.2 hrest
        constructor
        · simp only [List.pairwise_cons]
          refine ⟨?_, ihs.1⟩
          intro tr htr
          obtain ⟨pb, hpb, heq⟩ := ihs.2 tr htr
          rw [heq]
          exact hhead pb hpb
        · intro tr htr
          rcases List.mem_cons.mp htr with rfl | htr2
          · exact ⟨ps, by simp, rfl⟩
          · obtain ⟨pb, hpb, heq⟩ := ihs.2 tr htr2
            exact ⟨pb, by simp [hpb], heq⟩
      · have ihs := ih cur hrest
        refine ⟨ihs.1, ?_⟩
        intro tr htr
        obtain ⟨pb, hpb, heq⟩ := ihs.2 tr htr
        exact ⟨pb, by simp [hpb], heq⟩

theorem getLast?_cons_of_ne_nil {α : Type _} (a : α) (l : List α) (h : l ≠ []) :
    (a :: l).getLast? = l.getLast? := by
  cases l with
  | nil => exact absurd rfl h
  | cons b t => rw [List.getLast?_cons_cons]

theorem getLast?_eq_some_getLastD {α : Type _} (d : α) (l : List α) (h : l ≠ []) :
    l.getLast? = some (l.getLastD d) := by
  rw [List.getLastD_eq_getLast?, List.getLast?_eq_getLast l h]
  simp

theorem map_fst_getLast? (q0 : RoutePoint) (f0 : Bool) (orest : List (RoutePoint × Bool)) :
    (((q0, f0) :: orest).map Prod.fst).getLast? = some ((orest.map Prod.fst).getLastD q0) := by
  cases orest with
  | nil => simp [List.getLastD]
  | cons b t =>
      have h1 : (((q0, f0) :: b :: t).map Prod.fst) = q0 :: ((b :: t).map Prod.fst) := rfl
      rw [h1, getLast?_cons_of_ne_nil q0 _ (by simp),
        getLast?_eq_some_getLastD q0 ((b :: t).map Prod.fst) (by simp)]

theorem buildTransitions_facts (q0 : RoutePoint) (f0 : Bool)
    (orest : List (RoutePoint × Bool))
    (hsorted : ((q0, f0) :: orest).Pairwise
      (fun a b => a.1.distanceFromStart ≤ b.1.distanceFromStart))
    (hnonneg : ∀ pb ∈ (q0, f0) :: orest, 0 ≤ pb.1.distanceFromStart) :
    ∃ transitions : List Transition,
      buildTransitions ((q0, f0) :: orest) = some transitions
      ∧ transitions ≠ []
      ∧ (transitions.head?.map fun tr => tr.distance) = some 0
      ∧ (transitions.getLast?.map fun tr => tr.distance)
          = (((((q0, f0) :: orest).map Prod.fst).getLast?).map fun p => p.distanceFromStart)
      ∧ transitions.Pairwise (fun a b => a.distance ≤ b.distance)
      ∧ (∀ tr ∈ transitions, tr.distance = 0
          ∨ ∃ pb ∈ (q0, f0) :: orest, tr.distance = pb.1.distanceFromStart) := by
  have htg := transGo_facts orest f0 (List.pairwise_cons.mp hsorted).2
  have hlastmem : (orest.map Prod.fst).getLastD q0 ∈ ((q0, f0) :: orest).map Prod.fst := by
    cases orest with
    | nil => simp [List.getLastD]
    | cons b t =>
        have h1 : (((q0, f0) :: b :: t).map Prod.fst) = q0 :: ((b :: t).map Prod.fst) := rfl
        rw [h1]
        exact List.mem_cons_of_mem _ (getLastD_mem_of_ne_nil q0 ((b :: t).map Prod.fst)
          (by simp))
  obtain ⟨pbL, hpbL, hpbLeq⟩ := List.mem_map.mp hlastmem
  have hmapsorted : (((q0, f0) :: orest).map Prod.fst).Pairwise
      (fun a b => a.distanceFromStart ≤ b.distanceFromStart) := by
    refine List.pairwise_map.mpr (hsorted.imp ?_)
    intro a b h
    exact h
  refine ⟨_, rfl, by simp, by simp, ?_, ?_, ?_⟩
  · rw [List.getLast?_concat, map_fst_getLast?]
    simp
  · rw [List.pairwise_append]
    refine ⟨?_, by simp, ?_⟩
    · rw [List.pairwise_cons]
      refine ⟨?_, htg.1⟩
      intro tr htr
      obtain ⟨pb, hpb, heq⟩ := htg.2 tr htr
      rw [heq]
      exact hnonneg pb (by simp [hpb])
    · intro x hx y hy
      rw [List.mem_singleton] at hy
      subst hy
      simp only
      rcases List.mem_cons.mp hx with rfl | hx2
      · simp only
        rw [← hpbLeq]
        exact hnonneg pbL hpbL
      · obtain ⟨pb, hpb, heq⟩ := htg.2 x hx2
        rw [heq]
        exact routePoint_mem_le_getLast _ hmapsorted pb.1
          (List.mem_map_of_mem Prod.fst (by simp [hpb])) _ (map_fst_getLast? q0 f0 orest)
  · intro tr htr
    rcases List.mem_append.mp htr with h | h
    · rcases List.mem_cons.mp h with rfl | h2
      · exact Or.inl rfl
      · obtain ⟨pb, hpb, heq⟩ := htg.2 tr h2
        exact Or.inr ⟨pb, by simp [hpb], heq⟩
    · rw [List.mem_singleton] at h
      subst h
      exact Or.inr ⟨pbL, hpbL, congrArg (fun p => p.distanceFromStart) hpbLeq.symm⟩


end Analyze

namespace Analyze

theorem mergeGo_id (minLength : ℚ) :
    ∀ (rest stack : List Transition) (top : Transition),
      stack.head? = some top →
      List.Chain' (fun a b => minLength ≤ b.distance - a.distance) (top :: rest) →
      mergeGo minLength stack rest = stack.reverse ++ rest := by
  intro rest
  induction rest with
  | nil =>
      intro stack top _ _
      cases stack with
      | nil => rfl
      | cons a t => simp [mergeGo]
  | cons current rest2 ih =>
      intro stack top htop hch
      cases stack with
      | nil => simp at htop
      | cons lastMerged stackRest =>
          simp only [List.head?_cons, Option.some.injEq] at htop
          subst htop
          simp only [mergeGo]
          have hgap : minLength ≤ current.distance - lastMerged.distance :=
            (List.chain'_cons.mp hch).1
          rw [if_neg (by intro hcon; linarith [hcon.1])]
          rw [ih (current :: lastMerged :: stackRest) current (by simp)
            (List.chain'_cons.mp hch).2]
          rw [List.reverse_cons current]
          rw [List.append_assoc]
          rfl

theorem mergeSmallSegments_id (transitions : List Transition) (minLength : ℚ)
    (hch : List.Chain' (fun a b => minLength ≤ b.distance - a.distance) transitions) :
    mergeSmallSegments transitions minLength = transitions := by
  cases transitions with
  | nil => rfl
  | cons t0 rest =>
      cases rest with
      | nil => rfl
      | cons t1 rest2 =>
          simp only [mergeSmallSegments]
          rw [mergeGo_id minLength (t1 :: rest2) [t0] t0 (by simp) hch]
          rfl

theorem segmentsGo_orders (dist : DistFn) (G T : List RoutePoint) (hT : T ≠ []) :
    ∀ (ml : List Transition) (i : ℕ),
      ml.Pairwise (fun a b => a.distance ≤ b.distance) →
      (∀ tr ∈ ml, ∃ q ∈ G, tr.distance = q.distanceFromStart) →
      ∃ segs : List Segment, segmentsGo dist G T i ml = some segs
        ∧ segs.map (fun s => s.order) = List.range' (i + 1) (ml.length - 1) := by
  intro ml
  induction ml with
  | nil =>
      intro i _ _
      exact ⟨[], rfl, by simp⟩
  | cons t1 mrest ihml =>
      intro i hsorted hreal
      cases mrest with
      | nil => exact ⟨[], rfl, by simp⟩
      | cons t2 mrest2 =>
          obtain ⟨q, hq, hqeq⟩ := hreal t1 (by simp)
          have ht12 : t1.distance ≤ t2.distance :=
            (List.pairwise_cons.mp hsorted).1 t2 (by simp)
          have hgsne : extractRouteSection G t1.distance t2.distance ≠ [] := by
            intro hcon
            have hmem : q ∈ extractRouteSection G t1.distance t2.distance := by
              rw [extractRouteSection, List.mem_filter]
              refine ⟨hq, ?_⟩
              rw [decide_eq_true_eq]
              constructor
              · rw [hqeq]
              · rw [← hqeq]
                exact ht12
            rw [hcon] at hmem
            simp at hmem
          have hfcs : (findCorrespondingSection dist
              (extractRouteSection G t1.distance t2.distance) T).isSome = true := by
            cases hgs : extractRouteSection G t1.distance t2.distance with
            | nil => simp [findCorrespondingSection]
            | cons p0 prest =>
                cases hT2 : T with
                | nil => exact absurd hT2 hT
                | cons w0 wrest =>
                    simp [findCorrespondingSection, findNearestPoint]
          obtain ⟨ts, hts⟩ := Option.isSome_iff_exists.mp hfcs
          obtain ⟨segs, hsegs, horders⟩ := ihml (i + 1)
            (List.pairwise_cons.mp hsorted).2
            (fun tr htr => hreal tr (by simp [htr]))
          refine ⟨{ id := "seg-" ++ toString (i + 1),
                    type := if t1.isOverlapping then SegType.shared else SegType.diverging,
                    order := i + 1,
                    gravel := calculateSegmentStats dist
                      (extractRouteSection G t1.distance t2.distance),
                    tarmac := calculateSegmentStats dist ts } :: segs, ?_, ?_⟩
          · simp [segmentsGo, hts, hsegs, hgsne]
          · simp only [List.map_cons, horders]
            have hlen : (t1 :: t2 :: mrest2).length - 1 = ((t2 :: mrest2).length - 1) + 1 := by
              simp
            rw [hlen, List.range'_succ]

set_option maxRecDepth 100000 in
/-- C1 counterexample: on a 9-point straight-line primary track of 800 m whose
final 300 m diverge from the 500 m secondary track, the raw transitions are
[0 m (shared), 600 m (diverging), 800 m (end)]; the merge pass collapses the
short final span and drops the end transition, leaving the single transition
at 0 m and an EMPTY segment list — the spans neither cover the full 800 m
primary range nor produce any order values. -/
theorem C1_counterexample :
    Analyze.analyzeSegmentsCore Ex.exDist Ex.gravelEx Ex.tarmacEx = some []
    ∧ Analyze.mergedTransitionsOf Ex.exDist Ex.gravelEx Ex.tarmacEx
        = some [{ distance := 0, isOverlapping := true }]
    ∧ ((Analyze.addDistances Ex.exDist Ex.gravelEx).getLast?.map
        fun p => p.distanceFromStart) = some 800
    ∧ (800 : ℚ) ≠ 0 := by
  refine ⟨?_, ?_, ?_, ?_⟩ <;> with_unfolding_all decide


/-- C1 (amended): for every non-negative distance function and every pair of
non-empty input tracks, the pipeline produces a raw transition list and a
segment list such that: the raw transitions start at distance 0 and end at the
full primary-track distance; the merged list starts at distance 0; the
segments' order values form the contiguous sequence 1..N where N is the number
of merged spans; and whenever every raw span is at least the minimum segment
length the merge pass is the identity, so the merged spans cover the full
primary distance range contiguously.  (Without that proviso the merge pass can
drop the final transition and full-range coverage fails — see the
counterexample.) -/
theorem C1_segmentation_pipeline (dist : DistFn) (hdist : ∀ a b c d, 0 ≤ dist a b c d)
    (gravelCoords tarmacCoords : List Analyze.Coordinate)
    (hg : gravelCoords ≠ []) (ht : tarmacCoords ≠ []) :
    ∃ (transitions : List Analyze.Transition) (segs : List Analyze.Segment),
      Analyze.buildTransitions (Analyze.analyzeOverlap dist
          (Analyze.sampleRoute (Analyze.addDistances dist gravelCoords)
            Analyze.SAMPLE_INTERVAL_METERS)
          (Analyze.sampleRoute (Analyze.addDistances dist tarmacCoords)
            Analyze.SAMPLE_INTERVAL_METERS)
          Analyze.OVERLAP_THRESHOLD_METERS) = some transitions
      ∧ Analyze.analyzeSegmentsCore dist gravelCoords tarmacCoords = some segs
      ∧ segs.map (fun s => s.order)
          = List.range' 1 ((Analyze.mergeSmallSegments transitions
              Analyze.MIN_SEGMENT_LENGTH_METERS).length - 1)
      ∧ ((Analyze.mergeSmallSegments transitions
            Analyze.MIN_SEGMENT_LENGTH_METERS).head?.map fun tr => tr.distance) = some 0
      ∧ (transitions.head?.map fun tr => tr.distance) = some 0
      ∧ (transitions.getLast?.map fun tr => tr.distance)
          = ((Analyze.addDistances dist gravelCoords).getLast?.map
              fun p => p.distanceFromStart)
      ∧ (List.Chain' (fun a b =>
            Analyze.MIN_SEGMENT_LENGTH_METERS ≤ b.distance - a.distance) transitions →
          Analyze.mergeSmallSegments transitions Analyze.MIN_SEGMENT_LENGTH_METERS
            = transitions) := by
  have hGfacts := Analyze.addDistances_facts dist hdist gravelCoords hg
  have hTfacts := Analyze.addDistances_facts dist hdist tarmacCoords ht
  have hsamp := Analyze.sampleRoute_facts (Analyze.addDistances dist gravelCoords)
    Analyze.SAMPLE_INTERVAL_METERS hGfacts.2.1 hGfacts.1
  have hOVsorted : (Analyze.analyzeOverlap dist
      (Analyze.sampleRoute (Analyze.addDistances dist gravelCoords)
        Analyze.SAMPLE_INTERVAL_METERS)
      (Analyze.sampleRoute (Analyze.addDistances dist tarmacCoords)
        Analyze.SAMPLE_INTERVAL_METERS)
      Analyze.OVERLAP_THRESHOLD_METERS).Pairwise
      (fun a b => a.1.distanceFromStart ≤ b.1.distanceFromStart) := by
    have h1 : ((Analyze.analyzeOverlap dist
        (Analyze.sampleRoute (Analyze.addDistances dist gravelCoords)
          Analyze.SAMPLE_INTERVAL_METERS)
        (Analyze.sampleRoute (Analyze.addDistances dist tarmacCoords)
          Analyze.SAMPLE_INTERVAL_METERS)
        Analyze.OVERLAP_THRESHOLD_METERS).map Prod.fst).Pairwise
        (fun a b => a.distanceFromStart ≤ b.distanceFromStart) := by
      rw [Analyze.analyzeOverlap_map_fst]
      exact hsamp.2.2.2.2
    have h2 := List.pairwise_map.mp h1
    exact h2
  have hOVnonneg : ∀ pb ∈ Analyze.analyzeOverlap dist
      (Analyze.sampleRoute (Analyze.addDistances dist gravelCoords)
        Analyze.SAMPLE_INTERVAL_METERS)
      (Analyze.sampleRoute (Analyze.addDistances dist tarmacCoords)
        Analyze.SAMPLE_INTERVAL_METERS)
      Analyze.OVERLAP_THRESHOLD_METERS, 0 ≤ pb.1.distanceFromStart := by
    intro pb hpb
    have hmem : pb.1 ∈ Analyze.sampleRoute (Analyze.addDistances dist gravelCoords)
        Analyze.SAMPLE_INTERVAL_METERS := by
      rw [← Analyze.analyzeOverlap_map_fst dist
        (Analyze.sampleRoute (Analyze.addDistances dist gravelCoords)
          Analyze.SAMPLE_INTERVAL_METERS)
        (Analyze.sampleRoute (Analyze.addDistances dist tarmacCoords)
          Analyze.SAMPLE_INTERVAL_METERS) Analyze.OVERLAP_THRESHOLD_METERS]
      exact List.mem_map_of_mem Prod.fst hpb
    exact hGfacts.2.2.2 pb.1 (hsamp.2.2.2.1 pb.1 hmem)
  cases hOV : Analyze.analyzeOverlap dist
      (Analyze.sampleRoute (Analyze.addDistances dist gravelCoords)
        Analyze.SAMPLE_INTERVAL_METERS)
      (Analyze.sampleRoute (Analyze.addDistances dist tarmacCoords)
        Analyze.SAMPLE_INTERVAL_METERS)
      Analyze.OVERLAP_THRESHOLD_METERS with
  | nil =>
      exfalso
      apply hsamp.1
      rw [← Analyze.analyzeOverlap_map_fst dist
        (Analyze.sampleRoute (Analyze.addDistances dist gravelCoords)
          Analyze.SAMPLE_INTERVAL_METERS)
        (Analyze.sampleRoute (Analyze.addDistances dist tarmacCoords)
          Analyze.SAMPLE_INTERVAL_METERS) Analyze.OVERLAP_THRESHOLD_METERS, hOV]
      rfl
  | cons pb0 orest =>
      obtain ⟨q0, f0⟩ := pb0
      rw [hOV] at hOVsorted hOVnonneg
      have hfst : (((q0, f0) :: orest).map Prod.fst)
          = Analyze.sampleRoute (Analyze.addDistances dist gravelCoords)
            Analyze.SAMPLE_INTERVAL_METERS := by
        rw [← hOV]
        exact Analyze.analyzeOverlap_map_fst dist _ _ _
      obtain ⟨transitions, htr, htne, hthead, htlast, htsorted, htreal⟩ :=
        Analyze.buildTransitions_facts q0 f0 orest hOVsorted hOVnonneg
      obtain ⟨hmne, hmhead, hmchain, hmsub⟩ :=
        Analyze.mergeSmallSegments_spec transitions Analyze.MIN_SEGMENT_LENGTH_METERS htne
      have hmsorted : (Analyze.mergeSmallSegments transitions
          Analyze.MIN_SEGMENT_LENGTH_METERS).Pairwise
          (fun a b => a.distance ≤ b.distance) := htsorted.sublist hmsub
      have hmreal : ∀ tr ∈ Analyze.mergeSmallSegments transitions
          Analyze.MIN_SEGMENT_LENGTH_METERS,
          ∃ q ∈ Analyze.addDistances dist gravelCoords,
            tr.distance = q.distanceFromStart := by
        intro tr htrm
        rcases htreal tr (hmsub.mem htrm) with h0 | ⟨pb, hpb, heq⟩
        · obtain ⟨g0, hg0, hg0d⟩ := Option.map_eq_some'.mp hGfacts.2.2.1
          exact ⟨g0, List.mem_of_mem_head? hg0, by rw [h0, hg0d]⟩
        · refine ⟨pb.1, ?_, heq⟩
          apply hsamp.2.2.2.1
          rw [← hfst]
          exact List.mem_map_of_mem Prod.fst hpb
      obtain ⟨segs, hsegs, horders⟩ :=
        Analyze.segmentsGo_orders dist (Analyze.addDistances dist gravelCoords)
          (Analyze.addDistances dist tarmacCoords) hTfacts.2.1
          (Analyze.mergeSmallSegments transitions Analyze.MIN_SEGMENT_LENGTH_METERS) 0
          hmsorted hmreal
      have hmt : Analyze.mergedTransitionsOf dist gravelCoords tarmacCoords
          = some (Analyze.mergeSmallSegments transitions
              Analyze.MIN_SEGMENT_LENGTH_METERS) := by
        simp only [Analyze.mergedTransitionsOf]
        rw [hOV, htr]
        rfl
      have hcore : Analyze.analyzeSegmentsCore dist gravelCoords tarmacCoords
          = some segs := by
        simp only [Analyze.analyzeSegmentsCore]
        rw [hmt]
        exact hsegs
      refine ⟨transitions, segs, ?_, hcore, horders, ?_, hthead, ?_, ?_⟩
      · exact htr
      · rw [hmhead]
        exact hthead
      · rw [htlast, hfst, hsamp.2.2.1]
      · intro hch
        exact Analyze.mergeSmallSegments_id transitions
          Analyze.MIN_SEGMENT_LENGTH_METERS hch

/-- Witness for C1_segmentation_pipeline at the concrete meridian tracks: the
distance function is non-negative and both tracks are non-empty, and the
pipeline conclusion holds there. -/
theorem C1_segmentation_pipeline_witness :
    (∀ a b c d, 0 ≤ Ex.exDist a b c d) ∧ Ex.gravelEx ≠ [] ∧ Ex.tarmacEx ≠ []
    ∧ ∃ (transitions : List Analyze.Transition) (segs : List Analyze.Segment),
      Analyze.buildTransitions (Analyze.analyzeOverlap Ex.exDist
          (Analyze.sampleRoute (Analyze.addDistances Ex.exDist Ex.gravelEx)
            Analyze.SAMPLE_INTERVAL_METERS)
          (Analyze.sampleRoute (Analyze.addDistances Ex.exDist Ex.tarmacEx)
            Analyze.SAMPLE_INTERVAL_METERS)
          Analyze.OVERLAP_THRESHOLD_METERS) = some transitions
      ∧ Analyze.analyzeSegmentsCore Ex.exDist Ex.gravelEx Ex.tarmacEx = some segs
      ∧ segs.map (fun s => s.order)
          = List.range' 1 ((Analyze.mergeSmallSegments transitions
              Analyze.MIN_SEGMENT_LENGTH_METERS).length - 1)
      ∧ ((Analyze.mergeSmallSegments transitions
            Analyze.MIN_SEGMENT_LENGTH_METERS).head?.map fun tr => tr.distance) = some 0
      ∧ (transitions.head?.map fun tr => tr.distance) = some 0
      ∧ (transitions.getLast?.map fun tr => tr.distance)
          = ((Analyze.addDistances Ex.exDist Ex.gravelEx).getLast?.map
              fun p => p.distanceFromStart)
      ∧ (List.Chain' (fun a b =>
            Analyze.MIN_SEGMENT_LENGTH_METERS ≤ b.distance - a.distance) transitions →
          Analyze.mergeSmallSegments transitions Analyze.MIN_SEGMENT_LENGTH_METERS
            = transitions) :=
  ⟨fun a b c d => absQ_nonneg (c - a), by decide, by decide,
    C1_segmentation_pipeline Ex.exDist (fun a b c d => absQ_nonneg (c - a))
      Ex.gravelEx Ex.tarmacEx (by decide) (by decide)⟩
